import Mathlib

/-!
# Verification of `tknf/hono-utils` — `src/validator/parser.ts`

This file shallowly embeds the two core functions of the repository,
`flattenToNestedObject` (the structural decoder turning a flat map of
dot/bracket path keys into a nested value tree) and `sanitizeIssues`
(the vendor-aware redaction of validation issues), and proves or refutes
the frozen claims about them.

Modeling conventions (idealizations of the JavaScript runtime):
* JS values are modeled by `JSValue`; array slots distinguish holes from
  explicitly stored values (including stored `undefined`).
* Property lookup (`k in o`, `o[k]`) is modeled on own properties; the
  prototype chain of plain objects is not modeled, except for the `length`
  own property of arrays, which the code can observe.  In JS, keys such as
  `toString` are visible on `{}` through the chain and `__proto__` writes
  invoke an inherited accessor; universally quantified decoder theorems
  therefore restrict their path segments to `goodSeg` (or exclude
  `__proto__`), the domain on which the own-property model coincides with
  the engine.  Concrete counterexamples use segments in that domain.
* `Number(string)` is modeled exactly (no IEEE-754 rounding or overflow):
  a finite result is `(-1)^neg * mant * 10^exp`; `NaN` and `±Infinity` are
  collapsed into `none`, which is observationally identical in this code
  because the numeric value of a key is only used when
  `Number.isInteger(n) && n >= 0` holds.  Real `Number` rounds to binary64
  (a 310-digit token overflows to `Infinity`, i.e. a name segment), so
  theorems quantifying over digit tokens bound their length (≤ 15 digits
  is below `2^53` and exact; `goodSeg` uses ≤ 9).
* Array indices are not capped at `2^32 - 2`; `goodSeg`'s digit bound keeps
  quantified indices inside the real index range.
* The code runs in strict mode (ES module): property assignment on a
  primitive throws `TypeError`, as does the `in` operator on a primitive.
  Engine-defined exception messages are not modeled (`DecodeError.typeError`
  carries no payload); the message of the key-conflict `Error`, which the
  source itself builds, is modeled verbatim.
* A thrown exception aborts `flattenToNestedObject` before it returns, so the
  partially built local tree is unobservable; the `Except` embedding is
  therefore faithful for the decoder.
-/

/-! ## JS `Number(string)` conversion -/

/-- A finite result of JS `Number(string)`: the value `(-1)^neg * mant * 10^exp`. -/
structure JSNum where
  neg : Bool
  mant : Nat
  exp : Int
deriving Repr, DecidableEq

/-- `Number.isInteger` on a finite `JSNum`. -/
def JSNum.isInt (m : JSNum) : Bool :=
  decide (0 ≤ m.exp) || m.mant % (10 ^ (-m.exp).toNat) == 0

/-- `n >= 0` on a finite `JSNum` (`-0 >= 0` holds in JS). -/
def JSNum.isNonneg (m : JSNum) : Bool :=
  !m.neg || m.mant == 0

/-- The natural-number value of a nonnegative integral `JSNum`. -/
def JSNum.toNat (m : JSNum) : Nat :=
  if 0 ≤ m.exp then m.mant * 10 ^ m.exp.toNat else m.mant / 10 ^ (-m.exp).toNat

/-- The `StrWhiteSpace` characters trimmed by JS `Number(string)`. -/
def jsStrWhitespace (c : Char) : Bool :=
  c == ' ' || c == '\t' || c == '\n' || c == '\r' ||
  c == Char.ofNat 11 || c == Char.ofNat 12 || c == Char.ofNat 160 ||
  c == Char.ofNat 0xfeff || c == Char.ofNat 0x2028 || c == Char.ofNat 0x2029

/-- The numeric value of a list of decimal digits. -/
def digitsVal (cs : List Char) : Nat :=
  cs.foldl (fun a c => 10 * a + (c.toNat - 48)) 0

def isHexDigitCh (c : Char) : Bool :=
  c.isDigit || (decide (97 ≤ c.toNat) && decide (c.toNat ≤ 102)) ||
    (decide (65 ≤ c.toNat) && decide (c.toNat ≤ 70))

def hexVal (c : Char) : Nat :=
  if c.toNat ≤ 57 then c.toNat - 48 else if c.toNat ≤ 70 then c.toNat - 55 else c.toNat - 87

/-- The value of an unsigned radix-`b` digit string. -/
def radixVal (b : Nat) (cs : List Char) : Nat :=
  cs.foldl (fun a c => b * a + hexVal c) 0

/-- Parse an unsigned decimal literal `digits [. digits] [(e|E)[+|-]digits]`,
fully consuming the input; `none` is NaN. -/
def parseDecCore (cs : List Char) : Option JSNum :=
  let intD := cs.takeWhile Char.isDigit
  let r1 := cs.dropWhile Char.isDigit
  let fracD := match r1 with | '.' :: t => t.takeWhile Char.isDigit | _ => []
  let r2 := match r1 with | '.' :: t => t.dropWhile Char.isDigit | _ => r1
  if intD.isEmpty && fracD.isEmpty then none
  else
    let mant := digitsVal (intD ++ fracD)
    let fexp : Int := -(fracD.length : Int)
    match r2 with
    | [] => some ⟨false, mant, fexp⟩
    | c :: t =>
      if c == 'e' || c == 'E' then
        let eneg := match t with | '-' :: _ => true | _ => false
        let t2 := match t with | '+' :: u => u | '-' :: u => u | _ => t
        let expD := t2.takeWhile Char.isDigit
        let r3 := t2.dropWhile Char.isDigit
        if expD.isEmpty || !r3.isEmpty then none
        else some ⟨false, mant,
          fexp + (if eneg then -(digitsVal expD : Int) else (digitsVal expD : Int))⟩
      else none

/-- Unsigned decimal or `Infinity` (the latter is collapsed into `none`: it is
not an integer, which is all this code observes about it). -/
def parseUnsigned (cs : List Char) : Option JSNum :=
  if cs = "Infinity".toList then none else parseDecCore cs

def parseSigned (cs : List Char) : Option JSNum :=
  match cs with
  | '+' :: t => parseUnsigned t
  | '-' :: t => (parseUnsigned t).map (fun m => ⟨true, m.mant, m.exp⟩)
  | _ => parseUnsigned cs

/-- JS `Number(string)`: trim whitespace, empty means `0`, `0x`/`0o`/`0b`
radix literals (unsigned), otherwise signed decimal or `Infinity`. -/
def jsNumber (s : String) : Option JSNum :=
  let cs := ((s.toList.dropWhile jsStrWhitespace).reverse.dropWhile jsStrWhitespace).reverse
  match cs with
  | [] => some ⟨false, 0, 0⟩
  | '0' :: c :: rest =>
    if c == 'x' || c == 'X' then
      if !rest.isEmpty && rest.all isHexDigitCh then some ⟨false, radixVal 16 rest, 0⟩ else none
    else if c == 'o' || c == 'O' then
      if !rest.isEmpty && rest.all (fun d => decide (48 ≤ d.toNat) && decide (d.toNat ≤ 55)) then
        some ⟨false, radixVal 8 rest, 0⟩
      else none
    else if c == 'b' || c == 'B' then
      if !rest.isEmpty && rest.all (fun d => d == '0' || d == '1') then
        some ⟨false, radixVal 2 rest, 0⟩
      else none
    else parseSigned cs
  | _ => parseSigned cs

/-- The strict-index check of the source (parser.ts line 37):
`Number.isInteger(Number(k)) && Number(k) >= 0`. -/
def isStrictIndex (s : String) : Bool :=
  match jsNumber s with
  | some m => m.isInt && m.isNonneg
  | none => false

/-- `kAsNumber` as a natural-number array index (only used under `isStrictIndex`). -/
def kIdxNat (s : String) : Nat :=
  match jsNumber s with
  | some m => m.toNat
  | none => 0

/-- A canonical array-index string: the decimal numeral of a natural number with
no leading zero.  JS arrays store an element under `arr[k]` (string key `k`)
exactly when `k` is canonical; other numeric-looking keys become plain
properties of the array object. -/
def canonicalIndexNat (s : String) : Option Nat :=
  let cs := s.toList
  if !cs.isEmpty && cs.all Char.isDigit && (cs == ['0'] || !(cs.head? == some '0')) then
    some (digitsVal cs)
  else none

/-- The string-keyed properties a fresh plain object or array inherits from
`Object.prototype` / `Array.prototype` (ECMAScript 2024).  In JS, `k in o` and
`o[k]` consult the prototype chain, so these names are visible on `{}` and
`[]`; the model reads own properties only. -/
def INHERITED_KEYS : List String :=
  ["constructor", "hasOwnProperty", "isPrototypeOf", "propertyIsEnumerable",
   "toLocaleString", "toString", "valueOf",
   "__defineGetter__", "__defineSetter__", "__lookupGetter__", "__lookupSetter__",
   "__proto__",
   "at", "concat", "copyWithin", "entries", "every", "fill", "filter", "find",
   "findIndex", "findLast", "findLastIndex", "flat", "flatMap", "forEach",
   "includes", "indexOf", "join", "keys", "lastIndexOf", "length", "map", "pop",
   "push", "reduce", "reduceRight", "reverse", "shift", "slice", "some", "sort",
   "splice", "toReversed", "toSorted", "toSpliced", "unshift", "values", "with"]

/-- A plain data segment, on which this model's property operations and
`Number` conversion provably coincide with the JavaScript semantics the
source runs under:
* a digits-only token of at most 9 digits — its value is below `2^32 - 2`
  (a genuine array index, so writes do not fall off the index range) and
  below `2^53` (exactly representable, so no IEEE-754 rounding or overflow
  and the model's index equals the JS number); or
* a nonempty ASCII identifier-like name (letters and `_`) outside
  `INHERITED_KEYS` — JS `Number` yields `NaN` on it (a name segment in both
  model and program), it hits no inherited property of `{}`/`[]` under
  `in`/read, and it is not `__proto__`, so assignment creates an own
  property.

Universally quantified decoder theorems restrict their path segments to
`goodSeg`; outside it (e.g. a `toString` segment, a 310-digit index, a
`__proto__` write) the own-property, exact-arithmetic model diverges from
the engine. -/
def goodSeg (s : String) : Bool :=
  (!s.isEmpty && s.toList.all Char.isDigit && decide (s.length ≤ 9)) ||
  (!s.isEmpty && s.toList.all (fun c => c.isAlpha || c == '_') &&
    !(INHERITED_KEYS.contains s))

-- Sanity checks of the `Number` model.
example : isStrictIndex "0" = true := by decide
example : isStrictIndex "01" = true := by decide
example : isStrictIndex "1e2" = true ∧ kIdxNat "1e2" = 100 := by decide
example : isStrictIndex "0x10" = true ∧ kIdxNat "0x10" = 16 := by decide
example : isStrictIndex "1.0" = true ∧ kIdxNat "1.0" = 1 := by decide
example : isStrictIndex "-1" = false := by decide
example : isStrictIndex "1.5" = false := by decide
example : isStrictIndex "-0" = true := by decide
example : isStrictIndex "name" = false := by decide
example : isStrictIndex "Infinity" = false := by decide
example : isStrictIndex " 7 " = true ∧ kIdxNat " 7 " = 7 := by decide
example : canonicalIndexNat "01" = none ∧ canonicalIndexNat "10" = some 10 := by decide

/-! ## Key tokenization

`key.replace(/\[(\d+)\]/g, ".$1").replace(/\[([^\]]+)\]/g, ".$1").split(".")
   .filter(k => k.length > 0)`
modeled by two single-pass scanners with the exact non-overlapping,
leftmost-match semantics of a global regex replace. -/

/-- Global replace of `[digits]` (one or more digits) by `.digits`.
The state `some ds` means: scanning inside `[`, having read digits `ds`
(reversed).  A failed match re-emits the consumed characters literally;
a new match can only start at a later `[`. -/
def replIdxAux : Option (List Char) → List Char → List Char
  | none, [] => []
  | some ds, [] => '[' :: ds.reverse
  | none, c :: rest =>
    if c == '[' then replIdxAux (some []) rest
    else c :: replIdxAux none rest
  | some ds, c :: rest =>
    if c == ']' then
      if ds.isEmpty then '[' :: ']' :: replIdxAux none rest
      else '.' :: (ds.reverse ++ replIdxAux none rest)
    else if c.isDigit then replIdxAux (some (c :: ds)) rest
    else if c == '[' then '[' :: (ds.reverse ++ replIdxAux (some []) rest)
    else '[' :: (ds.reverse ++ (c :: replIdxAux none rest))

/-- Global replace of `[content]` (one or more non-`]` characters) by `.content`. -/
def replNameAux : Option (List Char) → List Char → List Char
  | none, [] => []
  | some cs, [] => '[' :: cs.reverse
  | none, c :: rest =>
    if c == '[' then replNameAux (some []) rest
    else c :: replNameAux none rest
  | some cs, c :: rest =>
    if c == ']' then
      if cs.isEmpty then '[' :: ']' :: replNameAux none rest
      else '.' :: (cs.reverse ++ replNameAux none rest)
    else replNameAux (some (c :: cs)) rest

/-- `split(".")` (every occurrence, keeping empty pieces, which the caller filters). -/
def splitDotsAux (cur : List Char) : List Char → List (List Char)
  | [] => [cur.reverse]
  | c :: rest =>
    if c == '.' then cur.reverse :: splitDotsAux [] rest
    else splitDotsAux (c :: cur) rest

/-- Key normalization and splitting of the source (parser.ts lines 22-26). -/
def normalizeKey (key : String) : List String :=
  ((splitDotsAux [] (replNameAux none (replIdxAux none key.toList))).filter
    (fun cs => !cs.isEmpty)).map (fun cs => String.mk cs)

example : normalizeKey "cars[0].model" = ["cars", "0", "model"] := by decide
example : normalizeKey "user[preferences].language" = ["user", "preferences", "language"] := by decide
example : normalizeKey "a[b].c" = ["a", "b", "c"] := by decide
example : normalizeKey "a[0x2]" = ["a", "0x2"] := by decide
example : normalizeKey "[[1]]" = ["1"] := by decide
example : normalizeKey "a..b." = ["a", "b"] := by decide
example : normalizeKey "" = [] := by decide
example : normalizeKey "a[12" = ["a[12"] := by decide
example : normalizeKey "a[]b" = ["a[]b"] := by decide

/-! ## JS values -/

mutual
/-- Model of a JavaScript runtime value as manipulated by the decoder. -/
inductive JSValue where
  | undef
  | null
  | bool (b : Bool)
  | num (n : Int)
  | str (s : String)
  | obj (props : JSProps)
  | arr (elems : JSElems) (props : JSProps)
deriving DecidableEq

/-- Own enumerable string-keyed properties of a JS object, in insertion order. -/
inductive JSProps where
  | nil
  | cons (k : String) (v : JSValue) (tl : JSProps)
deriving DecidableEq

/-- The indexed slots of a JS array: each slot is a hole or holds a value
(a stored `undefined` is `elem .undef`, distinct from a hole for `in`). -/
inductive JSElems where
  | nil
  | hole (tl : JSElems)
  | elem (v : JSValue) (tl : JSElems)
deriving DecidableEq
end

namespace JSProps

/-- `o[k]` on own properties. -/
def lookup : JSProps → String → Option JSValue
  | .nil, _ => none
  | .cons k v tl, key => if k == key then some v else lookup tl key

/-- `k in o` on own properties. -/
def hasKey (ps : JSProps) (key : String) : Bool :=
  (ps.lookup key).isSome

/-- `o[k] = val`: overwrite in place, or append a new property. -/
def set : JSProps → String → JSValue → JSProps
  | .nil, key, val => .cons key val .nil
  | .cons k v tl, key, val =>
    if k == key then .cons k val tl else .cons k v (set tl key val)

/-- `delete o[k]`. -/
def del : JSProps → String → JSProps
  | .nil, _ => .nil
  | .cons k v tl, key => if k == key then tl else .cons k v (del tl key)

def keys : JSProps → List String
  | .nil => []
  | .cons k _ tl => k :: keys tl

end JSProps

namespace JSElems

def length : JSElems → Nat
  | .nil => 0
  | .hole tl => tl.length + 1
  | .elem _ tl => tl.length + 1

/-- The value in slot `i`: `none` for a hole or an out-of-bounds read
(JS reads `undefined` in both cases, but `in` distinguishes them). -/
def get : JSElems → Nat → Option JSValue
  | .nil, _ => none
  | .hole _, 0 => none
  | .elem v _, 0 => some v
  | .hole tl, n + 1 => get tl n
  | .elem _ tl, n + 1 => get tl n

/-- `arr[i] = val`, extending the array with holes if `i` is past the end. -/
def set : JSElems → Nat → JSValue → JSElems
  | .nil, 0, val => .elem val .nil
  | .nil, n + 1, val => .hole (set .nil n val)
  | .hole tl, 0, val => .elem val tl
  | .elem _ tl, 0, val => .elem val tl
  | .hole tl, n + 1, val => .hole (set tl n val)
  | .elem v tl, n + 1, val => .elem v (set tl n val)

/-- `arr.length = n`: truncate, or extend with holes. -/
def resize : JSElems → Nat → JSElems
  | _, 0 => .nil
  | .nil, n + 1 => .hole (resize .nil n)
  | .hole tl, n + 1 => .hole (resize tl n)
  | .elem v tl, n + 1 => .elem v (resize tl n)

/-- The slots as a Lean list (`none` = hole). -/
def toList : JSElems → List (Option JSValue)
  | .nil => []
  | .hole tl => none :: toList tl
  | .elem v tl => some v :: toList tl

end JSElems

/-- `Array.isArray`. -/
def isArrB : JSValue → Bool
  | .arr _ _ => true
  | _ => false

/-- `Array.isArray(x) ? "array" : "object"` (parser.ts line 47). -/
def typeNameOf (v : JSValue) : String :=
  if isArrB v then "array" else "object"

/-- JS falsiness of a value (`!x`). -/
def jsFalsy : JSValue → Bool
  | .undef => true
  | .null => true
  | .bool b => !b
  | .num n => n == 0
  | .str s => s == ""
  | _ => false

/-- How the decoder can fail: the key-conflict `Error` the source itself throws
(with its exact message), or a runtime `TypeError`/`RangeError` raised by the
JS semantics of the operations it performs. -/
inductive DecodeError where
  | conflict (msg : String)
  | typeError
  | rangeError
deriving DecidableEq

/-- `key in current`: own-property test; on an array also the `length` own
property; throws `TypeError` when `current` is a primitive.  The prototype
chain is not modeled (`"toString" in {}` is `true` in JS): theorems
quantifying over keys restrict segments to `goodSeg`, which excludes every
inherited name of `{}`/`[]`. -/
def jsIn (key : String) : JSValue → Except DecodeError Bool
  | .obj props => .ok (props.hasKey key)
  | .arr elems props =>
    .ok (if key == "length" then true
      else match canonicalIndexNat key with
      | some i => (elems.get i).isSome
      | none => props.hasKey key)
  | _ => .error .typeError

/-- `current[key]` read (total; only reached on objects/arrays in the
decoder).  Own properties only: real `current[k]` also returns inherited
values (e.g. `Object.prototype.toString`), which `goodSeg` segments never
name. -/
def jsGetProp (key : String) : JSValue → JSValue
  | .obj props => (props.lookup key).getD .undef
  | .arr elems props =>
    if key == "length" then .num elems.length
    else match canonicalIndexNat key with
    | some i => (elems.get i).getD .undef
    | none => (props.lookup key).getD .undef
  | _ => (.undef)

/-- Converting a value assigned to `arr.length`: a nonnegative integer is
accepted, anything else raises `RangeError` (`none`).  Objects and arrays
(whose `ToPrimitive` conversion is not modeled) are treated as invalid. -/
def jsToLengthN : JSValue → Option Nat
  | .num n => if 0 ≤ n then some n.toNat else none
  | .str s =>
    (match jsNumber s with
     | some m => if m.isInt && m.isNonneg then some m.toNat else none
     | none => none)
  | .bool b => some (if b then 1 else 0)
  | .null => some 0
  | _ => none

/-- `current[key] = val` with a string key: object property write; on an array
a canonical index writes the slot, `length` resizes (or raises `RangeError`),
anything else becomes a plain property of the array object; on a primitive
throws `TypeError` (strict mode).  The inherited `__proto__` accessor is not
modeled (in JS it absorbs the write or mutates the prototype instead of
creating an own property): theorems about this operation exclude the
`__proto__` key, as `goodSeg` does. -/
def jsSetProp (key : String) (val : JSValue) : JSValue → Except DecodeError JSValue
  | .obj props => .ok (.obj (props.set key val))
  | .arr elems props =>
    (match canonicalIndexNat key with
     | some i => .ok (.arr (elems.set i val) props)
     | none =>
       if key == "length" then
         match jsToLengthN val with
         | some n => .ok (.arr (elems.resize n) props)
         | none => .error .rangeError
       else .ok (.arr elems (props.set key val)))
  | _ => .error .typeError

/-- `current[kAsNumber]` read on an array (`undefined` for holes/out of bounds). -/
def elemAtD (v : JSValue) (i : Nat) : JSValue :=
  match v with
  | .arr es _ => (es.get i).getD .undef
  | _ => (.undef)

/-- `current[kAsNumber] = x` on an array. -/
def setIdx (v : JSValue) (i : Nat) (x : JSValue) : JSValue :=
  match v with
  | .arr es ps => .arr (es.set i x) ps
  | _ => v

/-- `expectedType === "array" ? [] : {}`. -/
def emptyOf (t : String) : JSValue :=
  if t == "array" then .arr .nil .nil else .obj .nil

/-- The conflict message template of the source (parser.ts lines 51-53). -/
def conflictMsg (k existing nextKey expected fullKey : String) : String :=
  "Key conflict: '" ++ k ++ "' is already defined as an " ++ existing ++
    ", but next key '" ++ nextKey ++ "' expects an " ++ expected ++ ". Full key: " ++ fullKey

/-- One entry's traversal of the tree (the `for (let i = 0; ...)` loop of
parser.ts lines 31-86), written as recursion over the remaining segments.
The JS loop mutates the subtree `current` in place; here each recursive call
returns the updated subtree, which the caller writes back into its slot —
equivalent because the loop only ever mutates at or below `current`, and a
descent into a primitive (where JS would copy rather than alias) always
throws before any write happens. -/
def assignSegs (fullKey : String) (value : JSValue) : List String → JSValue → Except DecodeError JSValue
  | [], current => .ok current
  | k :: rest, current => do
    let isStrict := isStrictIndex k
    let nextIsStrict := match rest with | [] => false | nk :: _ => isStrictIndex nk
    let expected := if nextIsStrict then "array" else "object"
    let kIn ← jsIn k current
    if kIn && !rest.isEmpty && !(typeNameOf (jsGetProp k current) == expected) then
      .error (.conflict (conflictMsg k (typeNameOf (jsGetProp k current)) (rest.headD "")
        expected fullKey))
    else
      match rest with
      | [] =>
        if isStrict && isArrB current then
          .ok (setIdx current (kIdxNat k) value)
        else
          jsSetProp k value current
      | _ :: _ => do
        let cur2 ← if kIn then pure current else jsSetProp k (emptyOf expected) current
        if isStrict && isArrB cur2 then
          let i := kIdxNat k
          let target := elemAtD cur2 i
          let child := if jsFalsy target then emptyOf expected else target
          let sub ← assignSegs fullKey value rest child
          .ok (setIdx cur2 i sub)
        else do
          let sub ← assignSegs fullKey value rest (jsGetProp k cur2)
          jsSetProp k sub cur2

mutual
/-- The array-compaction pass of the source (parser.ts lines 91-105):
`obj.map(compactArrays).filter(v => v !== undefined)` on arrays (holes are
skipped by `filter`, stored `undefined` is dropped by the predicate, and the
fresh array produced by `map` has no extra properties), recursion into own
properties of plain objects, identity on primitives. -/
def compactArrays : JSValue → JSValue
  | .obj props => .obj (compactProps props)
  | .arr elems _props => .arr (compactElems elems) .nil
  | v => v

def compactProps : JSProps → JSProps
  | .nil => .nil
  | .cons k v tl => .cons k (compactArrays v) (compactProps tl)

def compactElems : JSElems → JSElems
  | .nil => .nil
  | .hole tl => compactElems tl
  | .elem .undef tl => compactElems tl
  | .elem v tl => .elem (compactArrays v) (compactElems tl)
end

/-- The decoder (parser.ts lines 16-109): fold every flat entry into the
tree, then compact. -/
def flattenToNestedObject (flatObject : List (String × JSValue)) : Except DecodeError JSValue := do
  let data ← flatObject.foldlM (fun acc e => assignSegs e.1 e.2 (normalizeKey e.1) acc)
    (JSValue.obj .nil)
  .ok (compactArrays data)

/-! ## The issue sanitizer

`sanitizeIssues` (parser.ts lines 118-212).  Object identity and in-place
mutation matter to the claims about it (the arktype path allocates a fresh
issue object, the valibot path mutates the caller's issue), so issue objects
live on an explicit heap and the issue list holds references; mutation is
explicit state passing.  Non-object issues are carried as primitive values.
Sharing of the nested `data`/`path`/`input` values between two issue objects
is not modeled (each issue owns its value), and an array used directly as an
issue is not modeled. -/

/-- An issue object on the heap: its prototype (an opaque identity preserved
by `Object.create(Object.getPrototypeOf(issue))`) and its own enumerable
fields. -/
structure IssueObj where
  proto : Nat
  fields : JSProps
deriving DecidableEq

/-- An element of an issue list: a reference to a heap object, or a
primitive/plain value. -/
inductive IssueRef where
  | ref (i : Nat)
  | prim (v : JSValue)
deriving DecidableEq

abbrev IssueHeap := List IssueObj

/-- The only way the sanitizer can fail: a runtime `TypeError` (the engine
message is not modeled). -/
inductive SanitizeError where
  | typeError
deriving DecidableEq

/-- `RESTRICTED_DATA_FIELDS` (parser.ts lines 118-120). -/
def RESTRICTED_DATA_FIELDS : List (String × List String) :=
  [("header", ["cookie"])]

/-- The arktype per-issue transform on an issue's own fields (parser.ts lines
169-184): when `data` is a non-null non-array object, spread-copy it, delete
every restricted field from the copy, and produce the field set of the
sanitized issue (`Object.assign(fresh, issue, {data: dataCopy})`); `none`
when the guard fails and the issue is passed through unchanged. -/
def arktypeFields (restrictedFields : List String) (fields : JSProps) : Option JSProps :=
  match fields.lookup "data" with
  | some (.obj dataProps) =>
    some (fields.set "data" (.obj (restrictedFields.foldl JSProps.del dataProps)))
  | _ => none

/-- `sanitizeArktypeIssues` (parser.ts lines 164-188): `issues.map(...)` where
a transformed issue is a freshly allocated object with the original's
prototype; the original heap entry is never written. -/
def sanitizeArktypeIssues (heap : IssueHeap) (issues : List IssueRef)
    (restrictedFields : List String) : IssueHeap × List IssueRef :=
  match issues with
  | [] => (heap, [])
  | iss :: tl =>
    let step : IssueHeap × IssueRef :=
      match iss with
      | .ref i =>
        (match heap.get? i with
         | some o =>
           (match arktypeFields restrictedFields o.fields with
            | some fields2 => (heap ++ [⟨o.proto, fields2⟩], .ref heap.length)
            | none => (heap, iss))
         | none => (heap, iss))
      | .prim (.obj fs) =>
        (match arktypeFields restrictedFields fs with
         | some fields2 => (heap, .prim (.obj fields2))
         | none => (heap, iss))
      | .prim _ => (heap, iss)
    let rec2 := sanitizeArktypeIssues step.1 tl restrictedFields
    (rec2.1, step.2 :: rec2.2)

/-- One entry of `issue.path` under the valibot transform (parser.ts lines
196-207).  `typeof path === "object"` lets `null` through to `"input" in
path`, which throws `TypeError`; on an object or array whose `input` own
property is a non-null non-array object, the restricted fields are deleted
from that object in place. -/
def valibotPathEntry (restrictedFields : List String) : JSValue → Except SanitizeError JSValue
  | .null => .error .typeError
  | .obj props =>
    (match props.lookup "input" with
     | some (.obj inProps) =>
       .ok (.obj (props.set "input" (.obj (restrictedFields.foldl JSProps.del inProps))))
     | _ => .ok (.obj props))
  | .arr es ps =>
    (match ps.lookup "input" with
     | some (.obj inProps) =>
       .ok (.arr es (ps.set "input" (.obj (restrictedFields.foldl JSProps.del inProps))))
     | _ => .ok (.arr es ps))
  | v => .ok v

/-- `for (const path of issue.path)`: iterate the slots; a hole yields
`undefined`, which the `typeof` guard skips. -/
def valibotElems (restrictedFields : List String) : JSElems → Except SanitizeError JSElems
  | .nil => .ok .nil
  | .hole tl => do
    let t ← valibotElems restrictedFields tl
    .ok (.hole t)
  | .elem v tl => do
    let v2 ← valibotPathEntry restrictedFields v
    let t ← valibotElems restrictedFields tl
    .ok (.elem v2 t)

/-- The valibot per-issue transform on an issue's own fields (parser.ts lines
194-210): when `path` is an array, rewrite its entries in place. -/
def valibotFields (restrictedFields : List String) (fields : JSProps) :
    Except SanitizeError JSProps :=
  match fields.lookup "path" with
  | some (.arr es ps) => do
    let es2 ← valibotElems restrictedFields es
    .ok (fields.set "path" (.arr es2 ps))
  | _ => .ok fields

/-- `sanitizeValibotIssues` (parser.ts lines 190-212): `issues.map(...)` that
mutates each referenced issue object on the heap in place and returns the
same reference. -/
def sanitizeValibotIssues (heap : IssueHeap) (issues : List IssueRef)
    (restrictedFields : List String) : Except SanitizeError (IssueHeap × List IssueRef) :=
  match issues with
  | [] => .ok (heap, [])
  | iss :: tl => do
    let step : IssueHeap × IssueRef ←
      match iss with
      | .ref i =>
        (match heap.get? i with
         | some o => do
           let f2 ← valibotFields restrictedFields o.fields
           .ok (heap.set i ⟨o.proto, f2⟩, iss)
         | none => .ok (heap, iss))
      | .prim (.obj fs) => do
        let f2 ← valibotFields restrictedFields fs
        .ok (heap, IssueRef.prim (.obj f2))
      | .prim _ => .ok (heap, iss)
    let rec2 ← sanitizeValibotIssues step.1 tl restrictedFields
    .ok (rec2.1, step.2 :: rec2.2)

/-- `sanitizeIssues` (parser.ts lines 141-162). -/
def sanitizeIssues (heap : IssueHeap) (issues : List IssueRef) (vendor : String)
    (target : String) : Except SanitizeError (IssueHeap × List IssueRef) :=
  match RESTRICTED_DATA_FIELDS.lookup target with
  | none => .ok (heap, issues)
  | some restrictedFields =>
    if vendor == "arktype" then .ok (sanitizeArktypeIssues heap issues restrictedFields)
    else if vendor == "valibot" then sanitizeValibotIssues heap issues restrictedFields
    else .ok (heap, issues)

/-! ## Basic lemmas about the model's data structures -/

/-- Structural induction for `JSProps` (the mutual family blocks the built-in
`induction` tactic when the motive only mentions one member). -/
theorem JSProps.propsInductionOn {motive : JSProps → Prop} (nil : motive .nil)
    (cons : ∀ k v tl, motive tl → motive (.cons k v tl)) : ∀ ps, motive ps
  | .nil => nil
  | .cons k v tl => cons k v tl (propsInductionOn nil cons tl)

/-- Structural induction for `JSElems`. -/
theorem JSElems.elemsInductionOn {motive : JSElems → Prop} (nil : motive .nil)
    (hole : ∀ tl, motive tl → motive (.hole tl))
    (elem : ∀ v tl, motive tl → motive (.elem v tl)) : ∀ es, motive es
  | .nil => nil
  | .hole tl => hole tl (elemsInductionOn nil hole elem tl)
  | .elem v tl => elem v tl (elemsInductionOn nil hole elem tl)

theorem JSProps.lookup_set_self (ps : JSProps) (k : String) (v : JSValue) :
    (ps.set k v).lookup k = some v := by
  induction ps using JSProps.propsInductionOn with
  | nil => simp [JSProps.set, JSProps.lookup]
  | cons k0 v0 tl ih =>
    by_cases h : k0 = k
    · subst h; simp [JSProps.set, JSProps.lookup]
    · simp [JSProps.set, JSProps.lookup, h, ih]

theorem JSProps.lookup_set_ne (ps : JSProps) (k k' : String) (v : JSValue) (h : k' ≠ k) :
    (ps.set k v).lookup k' = ps.lookup k' := by
  induction ps using JSProps.propsInductionOn with
  | nil => simp [JSProps.set, JSProps.lookup, Ne.symm h]
  | cons k0 v0 tl ih =>
    by_cases h0 : k0 = k
    · subst h0; simp [JSProps.set, JSProps.lookup, Ne.symm h]
    · by_cases h1 : k0 = k'
      · subst h1; simp [JSProps.set, JSProps.lookup, h0]
      · simp [JSProps.set, JSProps.lookup, h0, h1, ih]

theorem JSProps.lookup_eq_none_of_not_mem_keys (ps : JSProps) (k : String)
    (h : k ∉ ps.keys) : ps.lookup k = none := by
  induction ps using JSProps.propsInductionOn with
  | nil => simp [JSProps.lookup]
  | cons k0 v0 tl ih =>
    simp [JSProps.keys] at h
    simp [JSProps.lookup, Ne.symm h.1, ih h.2]

theorem JSProps.lookup_del (ps : JSProps) (k f : String) (h : ps.keys.Nodup) :
    (ps.del k).lookup f = if f = k then none else ps.lookup f := by
  induction ps using JSProps.propsInductionOn with
  | nil => simp [JSProps.del, JSProps.lookup]
  | cons k0 v0 tl ih =>
    simp only [JSProps.keys, List.nodup_cons] at h
    by_cases h0 : k0 = k
    · subst h0
      by_cases hf : f = k0
      · subst hf
        simp [JSProps.del, JSProps.lookup_eq_none_of_not_mem_keys tl f h.1]
      · simp [JSProps.del, JSProps.lookup, hf, Ne.symm hf]
    · by_cases hf : f = k0
      · subst hf
        simp [JSProps.del, JSProps.lookup, h0, Ne.symm h0]
      · simp [JSProps.del, JSProps.lookup, h0, hf, Ne.symm hf, ih h.2]

theorem JSProps.keys_del_sublist (ps : JSProps) (k : String) :
    (ps.del k).keys.Sublist ps.keys := by
  induction ps using JSProps.propsInductionOn with
  | nil => simp [JSProps.del]
  | cons k0 v0 tl ih =>
    by_cases h0 : k0 = k
    · subst h0
      simp only [JSProps.del, beq_self_eq_true, if_true, JSProps.keys]
      exact List.sublist_cons_self _ _
    · simp only [JSProps.del, JSProps.keys, beq_iff_eq, h0, if_false]
      exact ih.cons₂ _

theorem JSProps.keys_del_nodup (ps : JSProps) (k : String) (h : ps.keys.Nodup) :
    (ps.del k).keys.Nodup := (ps.keys_del_sublist k).nodup h

theorem JSProps.lookup_foldl_del (fs : List String) (ps : JSProps) (f : String)
    (h : ps.keys.Nodup) :
    (fs.foldl JSProps.del ps).lookup f = if f ∈ fs then none else ps.lookup f := by
  induction fs generalizing ps with
  | nil => simp
  | cons f0 fst ih =>
    simp only [List.foldl_cons]
    rw [ih (ps.del f0) (ps.keys_del_nodup f0 h)]
    by_cases hf : f ∈ fst
    · simp [hf]
    · by_cases hf0 : f = f0
      · subst hf0; simp [hf, JSProps.lookup_del _ _ _ h]
      · simp [hf, hf0, JSProps.lookup_del _ _ _ h]

/-- Slots of a compacted array: the assigned (non-hole) values other than a
stored `undefined`, in order, each recursively compacted. -/
def ofValues : List JSValue → JSElems
  | [] => .nil
  | v :: t => .elem v (ofValues t)

theorem compactElems_eq (es : JSElems) :
    compactElems es =
      ofValues (((es.toList.filterMap id).filter (fun v => !(v == JSValue.undef))).map
        compactArrays) := by
  induction es using JSElems.elemsInductionOn with
  | nil => rfl
  | hole tl ih => simpa [JSElems.toList] using ih
  | elem v tl ih =>
    cases v <;> simp [JSElems.toList, compactElems, ofValues, ih]

/-! ## Claims -/

/-- C1: the spec claims `decode` either returns a nested value tree or fails
with the key-conflict error, and that descending through a scalar leaf can
produce no other exception.  The code violates this: on the flat map
`{"a": "x", "a.b": 1}` the second entry descends into the scalar `"x"` and the
`in` operator / property assignment on a primitive raises a runtime
`TypeError`, not the key-conflict `Error`. -/
theorem C1_decoder_throws_type_error_on_scalar_descent :
    flattenToNestedObject [("a", .str "x"), ("a.b", .num 1)] = .error .typeError := rfl

/-- C2 (counterexample): decoding is *not* permutation-invariant for every
conflict-free flat map.  `{"a.b.c": 1, "a.b": 5}` has no Mapping/Sequence
conflict (no conflict error is raised in this order, the terminal `a.b`
assignment overwrites the container), yet the reversed order first installs
the scalar `5` at `a.b` and then descending through it throws a `TypeError` —
so the two orders do not yield the same tree (one yields no tree at all). -/
theorem C2_order_dependence_counterexample :
    flattenToNestedObject [("a.b.c", .num 1), ("a.b", .num 5)] =
      .ok (.obj (.cons "a" (.obj (.cons "b" (.num 5) .nil)) .nil)) ∧
    flattenToNestedObject [("a.b", .num 5), ("a.b.c", .num 1)] = .error .typeError :=
  ⟨rfl, rfl⟩

/-- C3 (counterexample): a structural-kind conflict is *not* detected in every
entry order.  `a[1][0]` demands a Sequence at the position `a[1]` and
`a[01].b` demands a Mapping at the same position (`Number("01") === 1`), yet
with `a[1][0]` processed first the non-canonical spelling `"01"` makes the
`'01' in current` membership test miss the existing element, the conflict
check is skipped, and decoding succeeds silently (the second value is dropped
into a compacted-away property of the array); only the reversed order raises
the conflict error. -/
theorem C3_conflict_missed_counterexample :
    flattenToNestedObject [("a[1][0]", .str "x"), ("a[01].b", .str "y")] =
      .ok (.obj (.cons "a" (.arr (.elem (.arr (.elem (.str "x") .nil) .nil) .nil) .nil) .nil)) ∧
    flattenToNestedObject [("a[01].b", .str "y"), ("a[1][0]", .str "x")] =
      .error (.conflict
        "Key conflict: '1' is already defined as an object, but next key '0' expects an array. Full key: a[1][0]") :=
  ⟨rfl, rfl⟩

/-- C4 (counterexample): a position whose terminal value was explicitly
assigned `undefined` does *not* survive compaction: the
`filter(val => val !== undefined)` drops it exactly like a hole, so
`{"list[0]": undefined}` decodes to `{list: []}`. -/
theorem C4_assigned_undefined_removed_counterexample :
    compactArrays (.arr (.elem .undef .nil) .nil) = .arr .nil .nil ∧
    flattenToNestedObject [("list[0]", .undef)] =
      .ok (.obj (.cons "list" (.arr .nil .nil) .nil)) :=
  ⟨rfl, rfl⟩

/-- C4 (amended): compaction of a Sequence keeps exactly the assigned
(non-hole) positions whose value is not `undefined` — in particular every
explicitly assigned `null`, `false`, `0` or `""` — preserving their relative
order and recursively compacting them, and it drops the array's non-index
properties; assigned `undefined` is removed like a hole.  The spec's own
example `{"list[1]": null, "list[3]": false}` decodes to
`{list: [null, false]}`. -/
theorem C4_compaction_amended :
    (∀ es ps, compactArrays (.arr es ps) =
      .arr (ofValues (((es.toList.filterMap id).filter (fun v => !(v == JSValue.undef))).map
        compactArrays)) .nil) ∧
    flattenToNestedObject [("list[1]", .null), ("list[3]", .bool false)] =
      .ok (.obj (.cons "list" (.arr (.elem .null (.elem (.bool false) .nil)) .nil) .nil)) := by
  refine ⟨fun es ps => ?_, rfl⟩
  rw [show compactArrays (.arr es ps) = .arr (compactElems es) .nil from rfl, compactElems_eq]

/-- C5 (counterexample): segment classification is *not* "strict index iff the
token is all decimal digits".  The code classifies a segment with
`Number.isInteger(Number(k)) && Number(k) >= 0`, and JS `Number` accepts
exponent and radix notation: `"1e2"` and `"0x10"` are classified as strict
indices (contradicting the claim's `e.g. "1e2" or "0x10" ... treated as a
name segment`), observable as `{"a[0x2]": "v"}` decoding to `{a: ["v"]}`
rather than to a Mapping `{a: {"0x2": "v"}}`. -/
theorem C5_nondigit_strict_index_counterexample :
    isStrictIndex "1e2" = true ∧ isStrictIndex "0x10" = true ∧
    flattenToNestedObject [("a[0x2]", .str "v")] =
      .ok (.obj (.cons "a" (.arr (.elem (.str "v") .nil) .nil) .nil)) :=
  ⟨rfl, rfl, rfl⟩

/-- C6: the spec claims the sanitizer never fails, but the valibot branch lets
`null` path entries through its `typeof path === "object"` guard and then
evaluates `"input" in null`, which raises a runtime `TypeError`: evaluated
here on one issue whose `path` array contains `null`, with vendor `valibot`
and the restricted target `header`. -/
theorem C6_sanitizer_throws_on_null_path_entry :
    sanitizeIssues [⟨0, .cons "path" (.arr (.elem .null .nil) .nil) .nil⟩] [.ref 0]
      "valibot" "header" = .error .typeError := rfl

/-- C7: if the target is not in the restricted-field configuration (e.g.
`"json"`), or the vendor is neither `"arktype"` nor `"valibot"`, the sanitizer
returns exactly the input issue list and leaves the heap (every issue object)
untouched — the identity pass-through. -/
theorem C7_sanitizer_pass_through (heap : IssueHeap) (issues : List IssueRef)
    (vendor target : String)
    (h : RESTRICTED_DATA_FIELDS.lookup target = none ∨
      (vendor ≠ "arktype" ∧ vendor ≠ "valibot")) :
    sanitizeIssues heap issues vendor target = .ok (heap, issues) := by
  unfold sanitizeIssues
  rcases h with h | ⟨h1, h2⟩
  · rw [h]
  · cases hl : RESTRICTED_DATA_FIELDS.lookup target with
    | none => rfl
    | some fs =>
      simp [beq_eq_false_iff_ne.mpr h1, beq_eq_false_iff_ne.mpr h2]

/-- Witness for C7 at the spec's own examples: target `"json"` with a known
vendor, and an unrecognized vendor with the restricted target `"header"`. -/
theorem C7_sanitizer_pass_through_witness :
    sanitizeIssues [⟨0, .nil⟩] [.ref 0] "arktype" "json" = .ok ([⟨0, .nil⟩], [.ref 0]) ∧
    sanitizeIssues [⟨0, .nil⟩] [.ref 0] "zod" "header" = .ok ([⟨0, .nil⟩], [.ref 0]) :=
  ⟨C7_sanitizer_pass_through _ _ _ _ (Or.inl rfl),
   C7_sanitizer_pass_through _ _ _ _ (Or.inr ⟨by decide, by decide⟩)⟩

/-- C10: the structural conflict check only guards non-terminal segments: a
single-segment (terminal) assignment into a Mapping never raises a conflict,
whatever the position currently holds — it silently overwrites, containers
included; and `{"a.b.c": 1}` followed by `{"a.b": 2}` decodes to
`{a: {b: 2}}`.  The overwrite conjunct excludes the key `__proto__`: in JS
that assignment is captured by the inherited accessor (absorbed for scalar
values), which the own-property write model does not represent; it raises no
error either way, so the no-conflict claim is unaffected. -/
theorem C10_terminal_overwrite_no_conflict :
    (∀ (props : JSProps) (k fullKey : String) (v : JSValue), k ≠ "__proto__" →
      assignSegs fullKey v [k] (.obj props) = .ok (.obj (props.set k v))) ∧
    flattenToNestedObject [("a.b.c", .num 1), ("a.b", .num 2)] =
      .ok (.obj (.cons "a" (.obj (.cons "b" (.num 2) .nil)) .nil)) := by
  refine ⟨fun props k fullKey v _hk => ?_, rfl⟩
  simp [assignSegs, jsIn, jsSetProp, isArrB]
  rfl

/-- Witness for C10's overwrite conjunct: the terminal segment `b` of `a.b`
overwrites the Mapping stored at `b` with the scalar `2`. -/
theorem C10_terminal_overwrite_witness :
    assignSegs "a.b" (JSValue.num 2) ["b"]
        (.obj (.cons "b" (.obj (.cons "c" (.num 1) .nil)) .nil)) =
      .ok (.obj (.cons "b" (.num 2) .nil)) :=
  C10_terminal_overwrite_no_conflict.1 (.cons "b" (.obj (.cons "c" (.num 1) .nil)) .nil)
    "b" "a.b" (.num 2) (by decide)

/-! ### C5: strict-index classification of all-digit tokens -/

theorem jsStrWhitespace_eq_false_of_isDigit (c : Char) (h : c.isDigit = true) :
    jsStrWhitespace c = false := by
  cases hws : jsStrWhitespace c
  · rfl
  · exfalso
    simp only [jsStrWhitespace, Bool.or_eq_true, beq_iff_eq] at hws
    rcases hws with (((((((((h1 | h1) | h1) | h1) | h1) | h1) | h1) | h1) | h1) | h1) <;>
      (subst h1; exact absurd h (by decide))

theorem dropWhile_ws_of_digits (cs : List Char) (h : ∀ c ∈ cs, c.isDigit = true) :
    cs.dropWhile jsStrWhitespace = cs := by
  cases cs with
  | nil => rfl
  | cons a t =>
    rw [List.dropWhile_cons,
      jsStrWhitespace_eq_false_of_isDigit a (h a (List.mem_cons_self a t))]
    simp

theorem parseSigned_digits (cs : List Char) (h1 : cs ≠ [])
    (h2 : ∀ c ∈ cs, c.isDigit = true) :
    parseSigned cs = some ⟨false, digitsVal cs, 0⟩ := by
  have hUnsigned : parseUnsigned cs = some ⟨false, digitsVal cs, 0⟩ := by
    have hne : cs ≠ "Infinity".toList := by
      intro heq
      have := h2 'I' (by rw [heq]; decide)
      exact absurd this (by decide)
    rw [parseUnsigned, if_neg hne, parseDecCore]
    rw [List.takeWhile_eq_self_iff.mpr h2, List.dropWhile_eq_nil_iff.mpr h2]
    have hempty : cs.isEmpty = false := by
      cases cs with
      | nil => exact absurd rfl h1
      | cons a t => rfl
    simp [hempty]
  rw [parseSigned]
  · exact hUnsigned
  all_goals
    intro t heq
    first
      | exact absurd (h2 '+' (by rw [heq]; exact List.mem_cons_self _ _)) (by decide)
      | exact absurd (h2 '-' (by rw [heq]; exact List.mem_cons_self _ _)) (by decide)

theorem jsNumber_digits (s : String) (h1 : s.toList ≠ [])
    (h2 : ∀ c ∈ s.toList, c.isDigit = true) :
    jsNumber s = some ⟨false, digitsVal s.toList, 0⟩ := by
  have htrim : ((s.toList.dropWhile jsStrWhitespace).reverse.dropWhile
      jsStrWhitespace).reverse = s.toList := by
    rw [dropWhile_ws_of_digits s.toList h2,
      dropWhile_ws_of_digits s.toList.reverse (fun c hc => h2 c (List.mem_reverse.mp hc)),
      List.reverse_reverse]
  rw [jsNumber]
  simp only [htrim]
  split
  · next heq => exact absurd heq h1
  · next c rest heq =>
    have hc : c.isDigit = true := h2 c (by rw [heq]; simp)
    have hx : (c == 'x' || c == 'X') = false := by
      cases hcc : c == 'x' with
      | true => exact absurd hc (by rw [(beq_iff_eq).mp hcc]; decide)
      | false =>
        cases hcC : c == 'X' with
        | true => exact absurd hc (by rw [(beq_iff_eq).mp hcC]; decide)
        | false => simp [hcc, hcC]
    have ho : (c == 'o' || c == 'O') = false := by
      cases hcc : c == 'o' with
      | true => exact absurd hc (by rw [(beq_iff_eq).mp hcc]; decide)
      | false =>
        cases hcC : c == 'O' with
        | true => exact absurd hc (by rw [(beq_iff_eq).mp hcC]; decide)
        | false => simp [hcc, hcC]
    have hb : (c == 'b' || c == 'B') = false := by
      cases hcc : c == 'b' with
      | true => exact absurd hc (by rw [(beq_iff_eq).mp hcc]; decide)
      | false =>
        cases hcC : c == 'B' with
        | true => exact absurd hc (by rw [(beq_iff_eq).mp hcC]; decide)
        | false => simp [hcc, hcC]
    rw [hx, ho, hb]
    simp only [Bool.false_eq_true, if_false]
    exact parseSigned_digits s.toList h1 h2
  · exact parseSigned_digits s.toList h1 h2

/-- C5 (amended): every token composed only of decimal digits (leading zeros
included) with at most 15 digits is classified a strict index, but the class
is strictly larger than the digits-only grammar: any token whose `Number`
value is a nonnegative integer qualifies, including exponent, radix and
decimal-point spellings such as `1e2`, `0x10`; `-1` and `1.5` remain name
segments as claimed.  The 15-digit bound keeps the value below `2^53`, where
binary64 `Number` is exact; in the real program a token of 310 or more digits
overflows to `Infinity` (`Number.isInteger` false) and is a *name* segment,
which the overflow-free `Number` model does not capture. -/
theorem C5_strict_index_amended :
    (∀ s : String, s.toList ≠ [] → s.length ≤ 15 → (∀ c ∈ s.toList, c.isDigit = true) →
      isStrictIndex s = true) ∧
    isStrictIndex "-1" = false ∧ isStrictIndex "1.5" = false ∧
    isStrictIndex "1e2" = true ∧ isStrictIndex "0x10" = true ∧
    isStrictIndex "01" = true := by
  refine ⟨fun s h1 _hlen h2 => ?_, rfl, rfl, rfl, rfl, rfl⟩
  rw [isStrictIndex, jsNumber_digits s h1 h2]
  rfl

/-- Witness for the amended C5 at the digits-only token `"42"`. -/
theorem C5_strict_index_witness : isStrictIndex "42" = true :=
  C5_strict_index_amended.1 "42" (by decide) (by decide) (by decide)

/-! ### C8: the arktype transform allocates clones and never mutates -/

theorem sanitizeArktypeIssues_spec (r : List String) (issues : List IssueRef) :
    ∀ H : IssueHeap,
    ∃ extra out, sanitizeArktypeIssues H issues r = (H ++ extra, out) ∧
      out.length = issues.length ∧
      ∀ (j i : Nat) (o : IssueObj), issues[j]? = some (.ref i) → H[i]? = some o →
        ((∀ f2, arktypeFields r o.fields = some f2 →
          ∃ ridx, out[j]? = some (.ref ridx) ∧ H.length ≤ ridx ∧
            (H ++ extra)[ridx]? = some ⟨o.proto, f2⟩) ∧
         (arktypeFields r o.fields = none → out[j]? = some (.ref i))) := by
  induction issues with
  | nil =>
    intro H
    refine ⟨[], [], by simp [sanitizeArktypeIssues], rfl, ?_⟩
    intro j i o hj
    simp at hj
  | cons iss tl ih =>
    intro H
    have key : ∀ stepH stepOut, (∃ ext0, stepH = H ++ ext0) →
        (sanitizeArktypeIssues H (iss :: tl) r =
          ((sanitizeArktypeIssues stepH tl r).1,
            stepOut :: (sanitizeArktypeIssues stepH tl r).2)) →
        (∀ (i : Nat) (o : IssueObj), iss = .ref i → H[i]? = some o →
          ((∀ f2, arktypeFields r o.fields = some f2 →
            stepOut = .ref H.length ∧ stepH[H.length]? = some ⟨o.proto, f2⟩) ∧
           (arktypeFields r o.fields = none → stepOut = .ref i))) →
        ∃ extra out, sanitizeArktypeIssues H (iss :: tl) r = (H ++ extra, out) ∧
          out.length = (iss :: tl).length ∧
          ∀ (j i : Nat) (o : IssueObj), (iss :: tl)[j]? = some (.ref i) → H[i]? = some o →
            ((∀ f2, arktypeFields r o.fields = some f2 →
              ∃ ridx, out[j]? = some (.ref ridx) ∧ H.length ≤ ridx ∧
                (H ++ extra)[ridx]? = some ⟨o.proto, f2⟩) ∧
             (arktypeFields r o.fields = none → out[j]? = some (.ref i))) := by
      rintro stepH stepOut ⟨ext0, rfl⟩ hunf hstep
      obtain ⟨extra1, out1, heq1, hlen1, hpt1⟩ := ih (H ++ ext0)
      refine ⟨ext0 ++ extra1, stepOut :: out1, ?_, by simp [hlen1], ?_⟩
      · rw [hunf, heq1, List.append_assoc]
      · intro j i o hj ho
        have hiH : i < H.length := (List.getElem?_eq_some_iff.mp ho).choose
        cases j with
        | zero =>
          simp only [List.getElem?_cons_zero, Option.some_inj] at hj
          obtain ⟨h1, h2⟩ := hstep i o hj ho
          constructor
          · intro f2 hf2
            obtain ⟨hOut, hAt⟩ := h1 f2 hf2
            refine ⟨H.length, by simp [hOut], le_refl _, ?_⟩
            rw [← List.append_assoc]
            have : ((H ++ ext0) ++ extra1)[H.length]? = (H ++ ext0)[H.length]? := by
              rcases Nat.lt_or_ge H.length (H ++ ext0).length with hlt | hge
              · exact List.getElem?_append_left hlt
              · -- then (H ++ ext0)[H.length]? = none, contradicting hAt
                exfalso
                rw [List.getElem?_eq_none_iff.mpr hge] at hAt
                exact Option.noConfusion hAt
            rw [this]
            exact hAt
          · intro hnone
            simp [h2 hnone]
        | succ j =>
          simp only [List.getElem?_cons_succ] at hj
          have ho' : (H ++ ext0)[i]? = some o := by
            rw [List.getElem?_append_left hiH]; exact ho
          obtain ⟨h1, h2⟩ := hpt1 j i o hj ho'
          constructor
          · intro f2 hf2
            obtain ⟨ridx, hOut, hge, hAt⟩ := h1 f2 hf2
            refine ⟨ridx, by simp [hOut], ?_, ?_⟩
            · exact le_trans (by simp) hge
            · rw [← List.append_assoc]; exact hAt
          · intro hnone
            simp [h2 hnone]
    -- now discharge `key` for each shape of the head issue
    cases iss with
    | ref i0 =>
      cases hH : H[i0]? with
      | none =>
        refine key H (.ref i0) ⟨[], by simp⟩ (by simp [sanitizeArktypeIssues, hH]) ?_
        intro i o hi ho
        cases hi
        rw [hH] at ho
        exact Option.noConfusion ho
      | some o0 =>
        cases hA : arktypeFields r o0.fields with
        | none =>
          refine key H (.ref i0) ⟨[], by simp⟩ (by simp [sanitizeArktypeIssues, hH, hA]) ?_
          intro i o hi ho
          cases hi
          rw [hH] at ho
          cases ho
          exact ⟨fun f2 hf2 => absurd (hA ▸ hf2) (by simp), fun _ => rfl⟩
        | some f2 =>
          refine key (H ++ [⟨o0.proto, f2⟩]) (.ref H.length) ⟨[⟨o0.proto, f2⟩], rfl⟩
            (by simp [sanitizeArktypeIssues, hH, hA]) ?_
          intro i o hi ho
          cases hi
          rw [hH] at ho
          cases ho
          refine ⟨fun f2' hf2' => ?_, fun hnone => absurd (hA ▸ hnone) (by simp)⟩
          rw [hA] at hf2'
          cases hf2'
          exact ⟨rfl, by rw [List.getElem?_append_right (le_refl _)]; simp⟩
    | prim v =>
      have hprim : ∀ stepOut,
          (sanitizeArktypeIssues H (.prim v :: tl) r =
            ((sanitizeArktypeIssues H tl r).1, stepOut :: (sanitizeArktypeIssues H tl r).2)) →
          ∃ extra out, sanitizeArktypeIssues H (.prim v :: tl) r = (H ++ extra, out) ∧
            out.length = (IssueRef.prim v :: tl).length ∧
            ∀ (j i : Nat) (o : IssueObj), (IssueRef.prim v :: tl)[j]? = some (.ref i) → H[i]? = some o →
              ((∀ f2, arktypeFields r o.fields = some f2 →
                ∃ ridx, out[j]? = some (.ref ridx) ∧ H.length ≤ ridx ∧
                  (H ++ extra)[ridx]? = some ⟨o.proto, f2⟩) ∧
               (arktypeFields r o.fields = none → out[j]? = some (.ref i))) := by
        intro stepOut hunf
        refine key H stepOut ⟨[], by simp⟩ hunf ?_
        intro i o hi
        exact absurd hi (by simp)
      cases v with
      | obj fs =>
        cases hA : arktypeFields r fs with
        | none => exact hprim (.prim (.obj fs)) (by simp [sanitizeArktypeIssues, hA])
        | some f2 => exact hprim (.prim (.obj f2)) (by simp [sanitizeArktypeIssues, hA])
      | undef => exact hprim (.prim .undef) (by simp [sanitizeArktypeIssues])
      | null => exact hprim (.prim .null) (by simp [sanitizeArktypeIssues])
      | bool b => exact hprim (.prim (.bool b)) (by simp [sanitizeArktypeIssues])
      | num n => exact hprim (.prim (.num n)) (by simp [sanitizeArktypeIssues])
      | str s => exact hprim (.prim (.str s)) (by simp [sanitizeArktypeIssues])
      | arr es ps => exact hprim (.prim (.arr es ps)) (by simp [sanitizeArktypeIssues])

/-- C8: with vendor `arktype` and the restricted target `header`, every issue
whose `data` payload is a plain object is replaced in the output by a freshly
allocated issue object (a reference past the end of the original heap) with
the same prototype, the same other fields, and a payload clone from which
every configured restricted field has been deleted; the original heap — every
original issue object and its payload — is a prefix of the result heap,
unmodified.  At the spec's concrete example, the payload
`{cookie: "secret", authorization: "token"}` sanitizes to
`{authorization: "token"}` while the original issue still carries the cookie. -/
theorem C8_arktype_sanitizer_clones :
    (∀ (heap : IssueHeap) (issues : List IssueRef),
      ∃ heap2 out, sanitizeIssues heap issues "arktype" "header" = .ok (heap2, out) ∧
        (∃ extra, heap2 = heap ++ extra) ∧
        out.length = issues.length ∧
        ∀ (j i : Nat) (o : IssueObj) (d : JSProps),
          issues[j]? = some (.ref i) → heap[i]? = some o →
          o.fields.lookup "data" = some (.obj d) →
          ∃ ridx o2, out[j]? = some (.ref ridx) ∧ heap.length ≤ ridx ∧
            heap2[ridx]? = some o2 ∧ o2.proto = o.proto ∧
            (∀ f, f ≠ "data" → o2.fields.lookup f = o.fields.lookup f) ∧
            ∃ d2, o2.fields.lookup "data" = some (.obj d2) ∧
              (d.keys.Nodup → ∀ f, d2.lookup f = if f = "cookie" then none else d.lookup f)) ∧
    sanitizeIssues
      [⟨7, .cons "message" (.str "Invalid header")
        (.cons "data" (.obj (.cons "cookie" (.str "secret")
          (.cons "authorization" (.str "token") .nil))) .nil)⟩]
      [.ref 0] "arktype" "header" =
      .ok ([⟨7, .cons "message" (.str "Invalid header")
        (.cons "data" (.obj (.cons "cookie" (.str "secret")
          (.cons "authorization" (.str "token") .nil))) .nil)⟩,
        ⟨7, .cons "message" (.str "Invalid header")
        (.cons "data" (.obj (.cons "authorization" (.str "token") .nil)) .nil)⟩],
        [.ref 1]) := by
  refine ⟨fun heap issues => ?_, rfl⟩
  obtain ⟨extra, out, heq, hlen, hpt⟩ := sanitizeArktypeIssues_spec ["cookie"] issues heap
  have hdispatch : sanitizeIssues heap issues "arktype" "header" =
      .ok (sanitizeArktypeIssues heap issues ["cookie"]) := rfl
  refine ⟨heap ++ extra, out, by rw [hdispatch, heq], ⟨extra, rfl⟩, hlen, ?_⟩
  intro j i o d hj hi hd
  obtain ⟨h1, _h2⟩ := hpt j i o hj hi
  have hA : arktypeFields ["cookie"] o.fields =
      some (o.fields.set "data" (.obj (d.del "cookie"))) := by
    unfold arktypeFields
    rw [hd]
    simp
  obtain ⟨ridx, hOut, hge, hAt⟩ := h1 _ hA
  refine ⟨ridx, ⟨o.proto, o.fields.set "data" (.obj (d.del "cookie"))⟩, hOut, hge, hAt, rfl,
    fun f hf => JSProps.lookup_set_ne _ _ _ _ hf,
    d.del "cookie", JSProps.lookup_set_self _ _ _, fun hnd f => JSProps.lookup_del d "cookie" f hnd⟩

/-- Witness for C8 at the spec's concrete example. -/
theorem C8_arktype_sanitizer_clones_witness :
    ∃ heap2 out,
      sanitizeIssues
        [⟨7, .cons "message" (.str "Invalid header")
          (.cons "data" (.obj (.cons "cookie" (.str "secret")
            (.cons "authorization" (.str "token") .nil))) .nil)⟩]
        [.ref 0] "arktype" "header" = .ok (heap2, out) ∧
      (∃ extra, heap2 =
        [⟨7, .cons "message" (.str "Invalid header")
          (.cons "data" (.obj (.cons "cookie" (.str "secret")
            (.cons "authorization" (.str "token") .nil))) .nil)⟩] ++ extra) ∧
      ∃ ridx o2, out[0]? = some (.ref ridx) ∧ 1 ≤ ridx ∧ heap2[ridx]? = some o2 ∧
        o2.proto = 7 ∧
        ∃ d2, o2.fields.lookup "data" = some (.obj d2) ∧
          d2.lookup "cookie" = none ∧ d2.lookup "authorization" = some (.str "token") := by
  obtain ⟨heap2, out, heq, hpre, _hlen, hpt⟩ :=
    C8_arktype_sanitizer_clones.1
      [⟨7, .cons "message" (.str "Invalid header")
        (.cons "data" (.obj (.cons "cookie" (.str "secret")
          (.cons "authorization" (.str "token") .nil))) .nil)⟩]
      [.ref 0]
  obtain ⟨ridx, o2, hOut, hge, hAt, hproto, _hothers, d2, hd2, hchar⟩ :=
    hpt 0 0 _ _ rfl rfl rfl
  refine ⟨heap2, out, heq, hpre, ridx, o2, hOut, hge, hAt, hproto, d2, hd2, ?_, ?_⟩
  · rw [hchar (by decide) "cookie"]
    rfl
  · rw [hchar (by decide) "authorization"]
    rfl

/-! ### C9: the valibot transform mutates the caller's issues in place -/

/-- What the valibot transform does to one entry of `issue.path`: when the
entry is an object (or array) whose `input` own property is a plain object,
the restricted field is deleted from that input object and everything else is
kept; any other entry is left exactly as it was. -/
def pathEntryRedacted (v v2 : JSValue) : Prop :=
  match v with
  | .obj p =>
    (match p.lookup "input" with
     | some (.obj ip) =>
       ∃ p2 ip2, v2 = .obj p2 ∧
         (∀ f, f ≠ "input" → p2.lookup f = p.lookup f) ∧
         p2.lookup "input" = some (.obj ip2) ∧
         (ip.keys.Nodup → ∀ f, ip2.lookup f = if f = "cookie" then none else ip.lookup f)
     | _ => v2 = v)
  | .arr es ps =>
    (match ps.lookup "input" with
     | some (.obj ip) =>
       ∃ ps2 ip2, v2 = .arr es ps2 ∧
         (∀ f, f ≠ "input" → ps2.lookup f = ps.lookup f) ∧
         ps2.lookup "input" = some (.obj ip2) ∧
         (ip.keys.Nodup → ∀ f, ip2.lookup f = if f = "cookie" then none else ip.lookup f)
     | _ => v2 = v)
  | _ => v2 = v

/-- What the valibot transform does to an issue's own fields: when `path` is
an array, its entries are rewritten per `pathEntryRedacted` (same length,
holes preserved) and every other field is untouched; otherwise the fields are
untouched. -/
def fieldsRedacted (fs f2 : JSProps) : Prop :=
  (∀ f, f ≠ "path" → f2.lookup f = fs.lookup f) ∧
  match fs.lookup "path" with
  | some (.arr es ps) =>
    ∃ es2, f2.lookup "path" = some (.arr es2 ps) ∧ es2.length = es.length ∧
      ∀ n : Nat, (es.get n = none → es2.get n = none) ∧
        ∀ v, es.get n = some v → ∃ v2, es2.get n = some v2 ∧ pathEntryRedacted v v2
  | _ => f2 = fs

/-- The in-place valibot rewrite of one issue object: same prototype, fields
per `fieldsRedacted`. -/
def issueRedacted (o o2 : IssueObj) : Prop :=
  o2.proto = o.proto ∧ fieldsRedacted o.fields o2.fields

theorem valibotPathEntry_redacted (v v2 : JSValue)
    (h : valibotPathEntry ["cookie"] v = .ok v2) : pathEntryRedacted v v2 := by
  cases v with
  | null => exact absurd h (by simp [valibotPathEntry])
  | obj p =>
    rw [valibotPathEntry] at h
    cases hin : p.lookup "input" with
    | none =>
      rw [hin] at h
      cases h
      simp [pathEntryRedacted, hin]
    | some iv =>
      rw [hin] at h
      cases iv with
      | obj ip =>
        cases h
        simp only [pathEntryRedacted, hin]
        refine ⟨p.set "input" (.obj (List.foldl JSProps.del ip ["cookie"])),
          List.foldl JSProps.del ip ["cookie"], rfl,
          fun f hf => JSProps.lookup_set_ne _ _ _ _ hf,
          JSProps.lookup_set_self _ _ _, fun hnd f => ?_⟩
        simpa using JSProps.lookup_del ip "cookie" f hnd
      | undef => cases h; simp [pathEntryRedacted, hin]
      | null => cases h; simp [pathEntryRedacted, hin]
      | bool b => cases h; simp [pathEntryRedacted, hin]
      | num n => cases h; simp [pathEntryRedacted, hin]
      | str s => cases h; simp [pathEntryRedacted, hin]
      | arr es2 ps2 => cases h; simp [pathEntryRedacted, hin]
  | arr es ps =>
    rw [valibotPathEntry] at h
    cases hin : ps.lookup "input" with
    | none =>
      rw [hin] at h
      cases h
      simp [pathEntryRedacted, hin]
    | some iv =>
      rw [hin] at h
      cases iv with
      | obj ip =>
        cases h
        simp only [pathEntryRedacted, hin]
        refine ⟨ps.set "input" (.obj (List.foldl JSProps.del ip ["cookie"])),
          List.foldl JSProps.del ip ["cookie"], rfl,
          fun f hf => JSProps.lookup_set_ne _ _ _ _ hf,
          JSProps.lookup_set_self _ _ _, fun hnd f => ?_⟩
        simpa using JSProps.lookup_del ip "cookie" f hnd
      | undef => cases h; simp [pathEntryRedacted, hin]
      | null => cases h; simp [pathEntryRedacted, hin]
      | bool b => cases h; simp [pathEntryRedacted, hin]
      | num n => cases h; simp [pathEntryRedacted, hin]
      | str s => cases h; simp [pathEntryRedacted, hin]
      | arr es3 ps3 => cases h; simp [pathEntryRedacted, hin]
  | undef => cases h; rfl
  | bool b => cases h; rfl
  | num n => cases h; rfl
  | str s => cases h; rfl

theorem valibotElems_redacted (es es2 : JSElems)
    (h : valibotElems ["cookie"] es = .ok es2) :
    es2.length = es.length ∧
      ∀ n : Nat, (es.get n = none → es2.get n = none) ∧
        ∀ v, es.get n = some v → ∃ v2, es2.get n = some v2 ∧ pathEntryRedacted v v2 := by
  induction es using JSElems.elemsInductionOn generalizing es2 with
  | nil =>
    cases h
    exact ⟨rfl, fun n => ⟨fun _ => rfl, fun v hv => by cases n <;> exact absurd hv (by simp [JSElems.get])⟩⟩
  | hole tl ih =>
    rw [valibotElems] at h
    cases ht : valibotElems ["cookie"] tl with
    | error e => rw [ht] at h; cases h
    | ok t =>
      rw [ht] at h
      cases h
      obtain ⟨hlen, hpt⟩ := ih t ht
      refine ⟨by simp [JSElems.length, hlen], fun n => ?_⟩
      cases n with
      | zero => exact ⟨fun _ => rfl, fun v hv => absurd hv (by simp [JSElems.get])⟩
      | succ n => exact hpt n
  | elem v tl ih =>
    rw [valibotElems] at h
    cases hv : valibotPathEntry ["cookie"] v with
    | error e => rw [hv] at h; cases h
    | ok v2 =>
      rw [hv] at h
      cases ht : valibotElems ["cookie"] tl with
      | error e => rw [ht] at h; cases h
      | ok t =>
        rw [ht] at h
        cases h
        obtain ⟨hlen, hpt⟩ := ih t ht
        refine ⟨by simp [JSElems.length, hlen], fun n => ?_⟩
        cases n with
        | zero =>
          refine ⟨fun hc => absurd hc (by simp [JSElems.get]), fun w hw => ?_⟩
          simp only [JSElems.get, Option.some_inj] at hw
          subst hw
          exact ⟨v2, rfl, valibotPathEntry_redacted _ _ hv⟩
        | succ n => exact hpt n

theorem valibotFields_redacted (fs f2 : JSProps)
    (h : valibotFields ["cookie"] fs = .ok f2) : fieldsRedacted fs f2 := by
  rw [valibotFields] at h
  unfold fieldsRedacted
  split at h
  · next es ps heq =>
    cases he : valibotElems ["cookie"] es with
    | error e => rw [he] at h; cases h
    | ok es2 =>
      rw [he] at h
      cases h
      obtain ⟨hlen, hpt⟩ := valibotElems_redacted es es2 he
      exact ⟨fun f hf => JSProps.lookup_set_ne _ _ _ _ hf,
        es2, JSProps.lookup_set_self _ _ _, hlen, hpt⟩
  · next hmis =>
    cases h
    exact ⟨fun _ _ => rfl, rfl⟩

theorem sanitizeValibotIssues_spec (issues : List IssueRef) :
    ∀ (H H2 : IssueHeap) (out : List IssueRef),
    sanitizeValibotIssues H issues ["cookie"] = .ok (H2, out) →
    (∀ (j j' i : Nat), issues[j]? = some (.ref i) → issues[j']? = some (.ref i) → j = j') →
    (∀ fs : JSProps, IssueRef.prim (.obj fs) ∉ issues) →
    out = issues ∧ H2.length = H.length ∧
    (∀ i : Nat, (∀ j : Nat, issues[j]? ≠ some (.ref i)) → H2[i]? = H[i]?) ∧
    (∀ (i : Nat) (o : IssueObj), IssueRef.ref i ∈ issues → H[i]? = some o →
      ∃ f2, valibotFields ["cookie"] o.fields = .ok f2 ∧ H2[i]? = some ⟨o.proto, f2⟩) := by
  induction issues with
  | nil =>
    intro H H2 out h _ _
    rw [sanitizeValibotIssues] at h
    cases h
    exact ⟨rfl, rfl, fun _ _ => rfl, fun i o hmem => absurd hmem (by simp)⟩
  | cons iss tl ih =>
    intro H H2 out h hdist hobj
    have hdistTl : ∀ (j j' i : Nat), tl[j]? = some (.ref i) → tl[j']? = some (.ref i) → j = j' :=
      fun j j' i hj hj' => by
        have := hdist (j + 1) (j' + 1) i (by simpa using hj) (by simpa using hj')
        omega
    have hobjTl : ∀ fs : JSProps, IssueRef.prim (.obj fs) ∉ tl :=
      fun fs hmem => hobj fs (List.mem_cons_of_mem _ hmem)
    -- a helper discharging the non-mutating head shapes
    have passthru : ∀ hstep : (sanitizeValibotIssues H (iss :: tl) ["cookie"] =
        do
          let rec2 ← sanitizeValibotIssues H tl ["cookie"]
          .ok (rec2.1, iss :: rec2.2)),
        (∀ (i : Nat) (o : IssueObj), iss = .ref i → H[i]? = some o → False) →
        out = iss :: tl ∧ H2.length = H.length ∧
        (∀ i : Nat, (∀ j : Nat, (iss :: tl)[j]? ≠ some (.ref i)) → H2[i]? = H[i]?) ∧
        (∀ (i : Nat) (o : IssueObj), IssueRef.ref i ∈ iss :: tl → H[i]? = some o →
          ∃ f2, valibotFields ["cookie"] o.fields = .ok f2 ∧ H2[i]? = some ⟨o.proto, f2⟩) := by
      intro hstep hhead
      rw [hstep] at h
      cases hrec : sanitizeValibotIssues H tl ["cookie"] with
      | error e => rw [hrec] at h; cases h
      | ok p =>
        rw [hrec] at h
        cases h
        obtain ⟨hout, hlen, huntouched, hmem⟩ := ih H p.1 p.2 (by rw [hrec]) hdistTl hobjTl
        refine ⟨by rw [hout], hlen, ?_, ?_⟩
        · intro i hno
          exact huntouched i (fun j => by simpa using hno (j + 1))
        · intro i o hm ho
          rcases List.mem_cons.mp hm with hm | hm
          · exact absurd ho (fun hc => hhead i o hm.symm hc)
          · exact hmem i o hm ho
    cases iss with
    | prim v =>
      cases v with
      | obj fs => exact absurd (List.mem_cons_self _ _) (hobj fs)
      | undef =>
        exact passthru (by rfl) (fun i o hi => by cases hi)
      | null =>
        exact passthru (by rfl) (fun i o hi => by cases hi)
      | bool b =>
        exact passthru (by rfl) (fun i o hi => by cases hi)
      | num n =>
        exact passthru (by rfl) (fun i o hi => by cases hi)
      | str s =>
        exact passthru (by rfl) (fun i o hi => by cases hi)
      | arr es ps =>
        exact passthru (by rfl) (fun i o hi => by cases hi)
    | ref i0 =>
      cases hH : H[i0]? with
      | none =>
        refine passthru ?_ ?_
        · rw [sanitizeValibotIssues]
          simp only [List.get?_eq_getElem?, hH]
          rfl
        · intro i o hi ho
          cases hi
          rw [hH] at ho
          cases ho
      | some o0 =>
        have hi0 : i0 < H.length := List.getElem?_eq_some_iff.mp hH |>.choose
        cases hvf : valibotFields ["cookie"] o0.fields with
        | error e =>
          have hstep : sanitizeValibotIssues H (IssueRef.ref i0 :: tl) ["cookie"] =
              .error e := by
            rw [sanitizeValibotIssues]
            simp only [List.get?_eq_getElem?, hH, hvf]
            rfl
          rw [hstep] at h
          cases h
        | ok f2 =>
          have hstep : sanitizeValibotIssues H (IssueRef.ref i0 :: tl) ["cookie"] =
              (do
                let rec2 ← sanitizeValibotIssues (H.set i0 ⟨o0.proto, f2⟩) tl ["cookie"]
                Except.ok (rec2.1, IssueRef.ref i0 :: rec2.2)) := by
            rw [sanitizeValibotIssues]
            simp only [List.get?_eq_getElem?, hH, hvf]
            rfl
          rw [hstep] at h
          cases hrec : sanitizeValibotIssues (H.set i0 ⟨o0.proto, f2⟩) tl ["cookie"] with
          | error e => rw [hrec] at h; cases h
          | ok p =>
            rw [hrec] at h
            cases h
            obtain ⟨hout, hlen, huntouched, hmem⟩ :=
              ih (H.set i0 ⟨o0.proto, f2⟩) p.1 p.2 (by rw [hrec]) hdistTl hobjTl
            have hnotl : ∀ j : Nat, tl[j]? ≠ some (.ref i0) := by
              intro j hj
              have := hdist 0 (j + 1) i0 (by simp) (by simpa using hj)
              omega
            refine ⟨by rw [hout], by rw [hlen, List.length_set], ?_, ?_⟩
            · intro i hno
              have hne : i ≠ i0 := by
                intro hcontra
                exact hno 0 (by simp [hcontra])
              rw [huntouched i (fun j => by simpa using hno (j + 1)),
                List.getElem?_set_ne (Ne.symm hne)]
            · intro i o hm ho
              rcases List.mem_cons.mp hm with hm | hm
              · cases hm
                rw [hH] at ho
                cases ho
                refine ⟨f2, hvf, ?_⟩
                rw [huntouched i0 hnotl, List.getElem?_set_self hi0]
              · have hne : i ≠ i0 := by
                  intro hcontra
                  obtain ⟨j, hj⟩ := List.mem_iff_getElem?.mp hm
                  exact hnotl j (by rw [hj, hcontra])
                refine hmem i o hm ?_
                rw [List.getElem?_set_ne (Ne.symm hne)]
                exact ho

/-- C9: with vendor `valibot` and the restricted target `header`, the
sanitizer returns the very same issue references it was given (no new issue
objects are allocated) and rewrites each referenced issue object on the heap
in place: same prototype, same fields other than `path`, and every
configured restricted field deleted from each path-entry's `input` object
(entries without a plain-object `input` are untouched) — the mutating
counterpart of the arktype clone.  The concrete conjunct shows a full
in-place run: the referenced issue's path-entry input loses its `cookie`
field while the same reference is returned. -/
theorem C9_valibot_sanitizer_in_place :
    (∀ (heap heap2 : IssueHeap) (issues out : List IssueRef),
      (∀ (j j' i : Nat), issues[j]? = some (.ref i) → issues[j']? = some (.ref i) → j = j') →
      (∀ fs : JSProps, IssueRef.prim (.obj fs) ∉ issues) →
      sanitizeIssues heap issues "valibot" "header" = .ok (heap2, out) →
      out = issues ∧ heap2.length = heap.length ∧
      ∀ (i : Nat) (o : IssueObj), IssueRef.ref i ∈ issues → heap[i]? = some o →
        ∃ o2, heap2[i]? = some o2 ∧ issueRedacted o o2) ∧
    sanitizeIssues
      [⟨3, .cons "message" (.str "bad")
        (.cons "path" (.arr (.elem (.obj (.cons "key" (.str "h")
          (.cons "input" (.obj (.cons "cookie" (.str "secret")
            (.cons "host" (.str "x") .nil))) .nil))) .nil) .nil) .nil)⟩]
      [.ref 0] "valibot" "header" =
      .ok ([⟨3, .cons "message" (.str "bad")
        (.cons "path" (.arr (.elem (.obj (.cons "key" (.str "h")
          (.cons "input" (.obj (.cons "host" (.str "x") .nil)) .nil))) .nil) .nil) .nil)⟩],
        [.ref 0]) := by
  refine ⟨fun heap heap2 issues out hdist hobj h => ?_, rfl⟩
  have hdispatch : sanitizeIssues heap issues "valibot" "header" =
      sanitizeValibotIssues heap issues ["cookie"] := rfl
  rw [hdispatch] at h
  obtain ⟨hout, hlen, _huntouched, hmem⟩ :=
    sanitizeValibotIssues_spec issues heap heap2 out h hdist hobj
  refine ⟨hout, hlen, ?_⟩
  intro i o hm ho
  obtain ⟨f2, hvf, hat⟩ := hmem i o hm ho
  exact ⟨⟨o.proto, f2⟩, hat, rfl, valibotFields_redacted _ _ hvf⟩

/-- Witness for C9 at the concrete example issue. -/
theorem C9_valibot_sanitizer_in_place_witness :
    ∃ o2,
      ([⟨3, .cons "message" (.str "bad")
        (.cons "path" (.arr (.elem (.obj (.cons "key" (.str "h")
          (.cons "input" (.obj (.cons "host" (.str "x") .nil)) .nil))) .nil) .nil) .nil)⟩] :
        IssueHeap)[0]? = some o2 ∧
      issueRedacted
        ⟨3, .cons "message" (.str "bad")
          (.cons "path" (.arr (.elem (.obj (.cons "key" (.str "h")
            (.cons "input" (.obj (.cons "cookie" (.str "secret")
              (.cons "host" (.str "x") .nil))) .nil))) .nil) .nil) .nil)⟩ o2 := by
  have hdist : ∀ (j j' i : Nat), ([IssueRef.ref 0])[j]? = some (IssueRef.ref i) →
      ([IssueRef.ref 0])[j']? = some (IssueRef.ref i) → j = j' := by
    intro j j' i hj hj'
    rcases j with _ | j
    · rcases j' with _ | j'
      · rfl
      · simp at hj'
    · simp at hj
  obtain ⟨_hout, _hlen, hpt⟩ :=
    C9_valibot_sanitizer_in_place.1
      [⟨3, .cons "message" (.str "bad")
        (.cons "path" (.arr (.elem (.obj (.cons "key" (.str "h")
          (.cons "input" (.obj (.cons "cookie" (.str "secret")
            (.cons "host" (.str "x") .nil))) .nil))) .nil) .nil) .nil)⟩]
      [⟨3, .cons "message" (.str "bad")
        (.cons "path" (.arr (.elem (.obj (.cons "key" (.str "h")
          (.cons "input" (.obj (.cons "host" (.str "x") .nil)) .nil))) .nil) .nil) .nil)⟩]
      [.ref 0] [.ref 0] hdist (by simp) rfl
  exact hpt 0 _ (by simp) rfl

/-! ### C3: conflict detection machinery

Inserting one entry into fresh containers builds a deterministic chain of
nodes (`buildNode`); a second entry sharing a raw segment prefix and then
demanding the other structural kind walks that chain and hits the conflict
check at the end of the shared prefix. -/

/-- `expectedType` for the remaining segments (parser.ts lines 40-43). -/
def kindStr (s : String) : String :=
  if isStrictIndex s then "array" else "object"

theorem JSProps.set_set_same_key (ps : JSProps) (k : String) (a b : JSValue) :
    (ps.set k a).set k b = ps.set k b := by
  induction ps using JSProps.propsInductionOn with
  | nil => simp [JSProps.set]
  | cons k0 v0 tl ih =>
    by_cases h : k0 = k
    · subst h; simp [JSProps.set]
    · simp [JSProps.set, h, ih]

theorem JSElems.get_nil (i : Nat) : JSElems.nil.get i = none := by
  cases i <;> rfl

theorem JSElems.get_set_self (es : JSElems) (i : Nat) (v : JSValue) :
    (es.set i v).get i = some v := by
  induction i generalizing es with
  | zero => cases es <;> rfl
  | succ n ih => cases es <;> simp [JSElems.set, JSElems.get, ih]

theorem JSElems.set_set_same_idx (es : JSElems) (i : Nat) (a b : JSValue) :
    (es.set i a).set i b = es.set i b := by
  induction i generalizing es with
  | zero => cases es <;> rfl
  | succ n ih => cases es <;> simp [JSElems.set, ih]

theorem strict_ne_length {s : String} (h : isStrictIndex s = true) :
    (s == "length") = false := by
  cases hb : s == "length"
  · rfl
  · rw [(beq_iff_eq).mp hb] at h
    exact absurd h (by decide)

theorem canonical_kIdx {s : String} {i : Nat} (h : canonicalIndexNat s = some i) :
    kIdxNat s = i := by
  rw [canonicalIndexNat] at h
  split at h
  · next hcond =>
    simp only [Bool.and_eq_true, Bool.not_eq_true'] at hcond
    cases h
    have hdig : ∀ c ∈ s.toList, c.isDigit = true := by
      intro c hc
      exact List.all_eq_true.mp hcond.1.2 c hc
    have hne : s.toList ≠ [] := by
      intro hnil
      rw [hnil] at hcond
      simp at hcond
    rw [kIdxNat, jsNumber_digits s hne hdig]
    simp [JSNum.toNat]
  · exact Option.noConfusion h

theorem jsIn_empty_obj (k : String) : jsIn k (.obj .nil) = .ok false := rfl

theorem jsIn_empty_arr {k : String} (hs : isStrictIndex k = true) :
    jsIn k (.arr .nil .nil) = .ok false := by
  rw [jsIn, strict_ne_length hs]
  cases hc : canonicalIndexNat k <;> simp [JSElems.get_nil, JSProps.hasKey, JSProps.lookup]

/-- The subtree that one entry builds when every container along its path is
created fresh: the slot for each segment holds the chain for the remaining
segments, and a non-terminal strict-index segment written in non-canonical
form additionally leaves an orphaned property on its array. -/
def buildNode : List String → JSValue → JSValue
  | [], v => v
  | k :: rest, v =>
    let sub := match rest with | [] => v | _ :: _ => buildNode rest v
    if isStrictIndex k then
      .arr (JSElems.nil.set (kIdxNat k) sub)
        (match rest, canonicalIndexNat k with
         | _ :: _, none => JSProps.nil.set k (emptyOf (kindStr (rest.headD "")))
         | _, _ => .nil)
    else
      .obj (JSProps.nil.set k sub)

theorem typeNameOf_buildNode (k : String) (rest : List String) (v : JSValue) :
    typeNameOf (buildNode (k :: rest) v) = kindStr k := by
  simp only [buildNode, kindStr]
  cases hs : isStrictIndex k <;> simp [hs, typeNameOf, isArrB]

theorem jsFalsy_buildNode (k : String) (rest : List String) (v : JSValue) :
    jsFalsy (buildNode (k :: rest) v) = false := by
  simp only [buildNode]
  cases hs : isStrictIndex k <;> simp [hs, jsFalsy]

theorem jsFalsy_emptyOf (t : String) : jsFalsy (emptyOf t) = false := by
  rw [emptyOf]
  cases h : t == "array" <;> simp [jsFalsy]


theorem exceptOkBind {ε α β : Type} (a : α) (f : α → Except ε β) :
    (do let x ← Except.ok a; f x) = f a := rfl

/-- Inserting one entry whose walk starts at a fresh container (of the kind
its first segment demands) always succeeds and produces `buildNode`. -/
theorem assign_fresh :
    ∀ (segs : List String), segs ≠ [] → ∀ (fullKey : String) (v : JSValue),
    assignSegs fullKey v segs (emptyOf (kindStr (segs.headD ""))) = .ok (buildNode segs v) := by
  intro segs
  induction segs with
  | nil => intro h; exact absurd rfl h
  | cons k rest ih =>
    intro _ fullKey v
    cases hs : isStrictIndex k with
    | false =>
      have hempty : emptyOf (kindStr (List.headD (k :: rest) "")) = .obj .nil := by
        simp [kindStr, hs, emptyOf]
      rw [hempty]
      cases rest with
      | nil =>
        rw [assignSegs, jsIn_empty_obj, exceptOkBind]
        simp [hs, jsSetProp, isArrB, buildNode, JSProps.set]
      | cons r0 rs =>
        have hsub := ih (by simp) fullKey v
        simp only [List.headD_cons] at hsub
        rw [assignSegs, jsIn_empty_obj, exceptOkBind]
        simp only [Bool.false_and, Bool.and_false, Bool.false_eq_true, if_false,
          Bool.not_eq_true]
        simp only [jsSetProp, exceptOkBind, isArrB, hs, Bool.false_and, Bool.false_eq_true,
          if_false, jsGetProp, JSProps.lookup_set_self, Option.getD_some]
        simp only [kindStr] at hsub
        rw [hsub, exceptOkBind]
        simp [jsSetProp, JSProps.set_set_same_key, buildNode, kindStr, hs]
    | true =>
      have hempty : emptyOf (kindStr (List.headD (k :: rest) "")) = .arr .nil .nil := by
        simp [kindStr, hs, emptyOf]
      rw [hempty]
      cases rest with
      | nil =>
        rw [assignSegs, jsIn_empty_arr hs, exceptOkBind]
        simp [hs, isArrB, setIdx, buildNode]
      | cons r0 rs =>
        have hsub := ih (by simp) fullKey v
        simp only [List.headD_cons] at hsub
        simp only [kindStr] at hsub
        rw [assignSegs, jsIn_empty_arr hs, exceptOkBind]
        simp only [Bool.false_and, Bool.and_false, Bool.false_eq_true, if_false,
          Bool.not_eq_true]
        cases hc : canonicalIndexNat k with
        | some i =>
          have hidx : kIdxNat k = i := canonical_kIdx hc
          simp only [jsSetProp, hc, exceptOkBind, isArrB, hs, Bool.true_and, if_true,
            elemAtD, hidx, JSElems.get_set_self, Option.getD_some, jsFalsy_emptyOf,
            Bool.false_eq_true, if_false]
          rw [hsub, exceptOkBind]
          simp [setIdx, JSElems.set_set_same_idx, buildNode, kindStr, hs, hc, hidx]
        | none =>
          simp only [jsSetProp, hc, strict_ne_length hs, Bool.false_eq_true, if_false,
            exceptOkBind, isArrB, hs, Bool.true_and, if_true, elemAtD, JSElems.get_nil,
            Option.getD_none, jsFalsy]
          rw [hsub, exceptOkBind]
          simp [setIdx, buildNode, kindStr, hs, hc]

theorem exceptErrBind {ε α β : Type} (e : ε) (f : α → Except ε β) :
    (do let x ← Except.error e; f x) = .error e := rfl

theorem kindStr_beq_false {s₁ s₂ : String} (h : isStrictIndex s₁ ≠ isStrictIndex s₂) :
    (kindStr s₁ == kindStr s₂) = false := by
  rw [kindStr, kindStr]
  cases h1 : isStrictIndex s₁ <;> cases h2 : isStrictIndex s₂ <;>
    first
      | (exact absurd (h1.trans h2.symm) h)
      | rfl

theorem buildNode_obj_eq (q : String) (t : String) (ts : List String) (w : JSValue)
    (hq : isStrictIndex q = false) :
    buildNode (q :: t :: ts) w = .obj (JSProps.nil.set q (buildNode (t :: ts) w)) := by
  simp [buildNode, hq]

theorem buildNode_arr_canonical_eq (q : String) (t : String) (ts : List String) (w : JSValue)
    (hq : isStrictIndex q = true) {i : Nat} (hc : canonicalIndexNat q = some i) :
    buildNode (q :: t :: ts) w =
      .arr (JSElems.nil.set (kIdxNat q) (buildNode (t :: ts) w)) .nil := by
  simp [buildNode, hq, hc]

theorem buildNode_arr_noncanonical_eq (q : String) (t : String) (ts : List String) (w : JSValue)
    (hq : isStrictIndex q = true) (hc : canonicalIndexNat q = none) :
    buildNode (q :: t :: ts) w =
      .arr (JSElems.nil.set (kIdxNat q) (buildNode (t :: ts) w))
        (JSProps.nil.set q (emptyOf (kindStr t))) := by
  simp [buildNode, hq, hc]

theorem jsIn_buildNode_self (q : String) (t : String) (ts : List String) (w : JSValue) :
    jsIn q (buildNode (q :: t :: ts) w) = .ok true := by
  cases hq : isStrictIndex q with
  | false =>
    rw [buildNode_obj_eq q t ts w hq]
    simp [jsIn, JSProps.hasKey, JSProps.lookup_set_self]
  | true =>
    cases hc : canonicalIndexNat q with
    | some i =>
      have hidx : kIdxNat q = i := canonical_kIdx hc
      rw [buildNode_arr_canonical_eq q t ts w hq hc, jsIn]
      simp [strict_ne_length hq, hc, hidx, JSElems.get_set_self]
    | none =>
      rw [buildNode_arr_noncanonical_eq q t ts w hq hc, jsIn]
      simp [strict_ne_length hq, hc, JSProps.hasKey, JSProps.lookup_set_self]

theorem jsGetProp_buildNode_self (q : String) (t : String) (ts : List String) (w : JSValue) :
    typeNameOf (jsGetProp q (buildNode (q :: t :: ts) w)) = kindStr t := by
  cases hq : isStrictIndex q with
  | false =>
    rw [buildNode_obj_eq q t ts w hq]
    simp [jsGetProp, JSProps.lookup_set_self, typeNameOf_buildNode]
  | true =>
    cases hc : canonicalIndexNat q with
    | some i =>
      have hidx : kIdxNat q = i := canonical_kIdx hc
      rw [buildNode_arr_canonical_eq q t ts w hq hc, jsGetProp]
      simp [strict_ne_length hq, hc, hidx, JSElems.get_set_self, typeNameOf_buildNode]
    | none =>
      rw [buildNode_arr_noncanonical_eq q t ts w hq hc, jsGetProp]
      simp only [strict_ne_length hq, Bool.false_eq_true, if_false, hc,
        JSProps.lookup_set_self, Option.getD_some]
      rw [kindStr]
      cases ht : isStrictIndex t <;> simp [emptyOf, typeNameOf, isArrB]

theorem jsGetProp_buildNode_obj (q : String) (t : String) (ts : List String) (w : JSValue)
    (hq : isStrictIndex q = false) :
    jsGetProp q (buildNode (q :: t :: ts) w) = buildNode (t :: ts) w := by
  rw [buildNode_obj_eq q t ts w hq]
  simp [jsGetProp, JSProps.lookup_set_self]

theorem walk_conflict :
    ∀ (p : List String) (hp : p ≠ []) (s₁ s₂ : String) (r₁ r₂ : List String)
      (v₁ v₂ : JSValue) (key₂ : String),
      isStrictIndex s₁ ≠ isStrictIndex s₂ →
      assignSegs key₂ v₂ (p ++ s₂ :: r₂) (buildNode (p ++ s₁ :: r₁) v₁) =
        .error (.conflict (conflictMsg (p.getLast hp) (kindStr s₁) s₂ (kindStr s₂) key₂)) := by
  intro p
  induction p with
  | nil => intro h; exact absurd rfl h
  | cons q p' ih =>
    intro _ s₁ s₂ r₁ r₂ v₁ v₂ key₂ hne
    cases p' with
    | nil =>
      simp only [List.singleton_append]
      rw [assignSegs, jsIn_buildNode_self q s₁ r₁ v₁, exceptOkBind]
      simp only [jsGetProp_buildNode_self, List.isEmpty_cons, Bool.not_false, Bool.true_and,
        List.headD_cons]
      rw [show (if (match s₂ :: r₂ with | [] => false | nk :: _ => isStrictIndex nk) = true
        then "array" else "object") = kindStr s₂ from rfl]
      simp [kindStr_beq_false hne, List.getLast]
    | cons q' p'' =>
      simp only [List.cons_append]
      rw [assignSegs, jsIn_buildNode_self q q' (p'' ++ s₁ :: r₁) v₁, exceptOkBind]
      simp only [jsGetProp_buildNode_self, List.isEmpty_cons, Bool.not_false, Bool.true_and,
        List.headD_cons]
      rw [show (if isStrictIndex q' = true then "array" else "object") = kindStr q' from by
        rw [kindStr]]
      simp only [beq_self_eq_true, Bool.not_true, Bool.and_false, Bool.false_eq_true, if_false,
        if_true]
      have hlast : (q :: q' :: p'').getLast (by simp) = (q' :: p'').getLast (by simp) := rfl
      have hrec := ih (by simp) s₁ s₂ r₁ r₂ v₁ v₂ key₂ hne
      simp only [List.cons_append] at hrec
      cases hq : isStrictIndex q with
      | false =>
        simp only [if_true, hq, Bool.false_and, Bool.false_eq_true, if_false]
        rw [pure_bind, jsGetProp_buildNode_obj q q' (p'' ++ s₁ :: r₁) v₁ hq]
        rw [hrec, exceptErrBind]
        rfl
      | true =>
        cases hc : canonicalIndexNat q with
        | some i =>
          have hidx : kIdxNat q = i := canonical_kIdx hc
          simp only [if_true, hq, Bool.true_and]
          rw [buildNode_arr_canonical_eq q q' (p'' ++ s₁ :: r₁) v₁ hq hc, pure_bind]
          simp only [isArrB, elemAtD, JSElems.get_set_self, Option.getD_some,
            jsFalsy_buildNode, Bool.false_eq_true, if_false, if_true]
          rw [hrec, exceptErrBind]
          rfl
        | none =>
          simp only [if_true, hq, Bool.true_and]
          rw [buildNode_arr_noncanonical_eq q q' (p'' ++ s₁ :: r₁) v₁ hq hc, pure_bind]
          simp only [isArrB, elemAtD, JSElems.get_set_self, Option.getD_some,
            jsFalsy_buildNode, Bool.false_eq_true, if_false, if_true]
          rw [hrec, exceptErrBind]
          rfl

theorem assign_root_cons (k t : String) (ts : List String) (fullKey : String) (v : JSValue) :
    assignSegs fullKey v (k :: t :: ts) (.obj .nil) =
      .ok (.obj (JSProps.nil.set k (buildNode (t :: ts) v))) := by
  have hsub := assign_fresh (t :: ts) (by simp) fullKey v
  simp only [List.headD_cons] at hsub
  rw [assignSegs, jsIn_empty_obj, exceptOkBind]
  simp only [Bool.false_and, Bool.and_false, Bool.false_eq_true, if_false]
  simp only [jsSetProp, exceptOkBind, isArrB, Bool.and_false, Bool.false_eq_true, if_false,
    jsGetProp, JSProps.lookup_set_self, Option.getD_some]
  simp only [kindStr] at hsub
  rw [hsub, exceptOkBind]
  simp [jsSetProp, JSProps.set_set_same_key]

theorem assign_root_entry (k : String) (p : List String) (s : String) (r : List String)
    (fullKey : String) (v : JSValue) :
    assignSegs fullKey v (k :: (p ++ s :: r)) (.obj .nil) =
      .ok (.obj (JSProps.nil.set k (buildNode (p ++ s :: r) v))) := by
  cases p with
  | nil => exact assign_root_cons k s r fullKey v
  | cons q p' =>
    simp only [List.cons_append]
    exact assign_root_cons k q (p' ++ s :: r) fullKey v

theorem root_conflict (k : String) (p : List String) (s₁ s₂ : String) (r₁ r₂ : List String)
    (v₁ v₂ : JSValue) (key₂ : String) (hne : isStrictIndex s₁ ≠ isStrictIndex s₂) :
    assignSegs key₂ v₂ (k :: (p ++ s₂ :: r₂))
        (.obj (JSProps.nil.set k (buildNode (p ++ s₁ :: r₁) v₁))) =
      .error (.conflict (conflictMsg ((k :: p).getLast (by simp)) (kindStr s₁) s₂ (kindStr s₂)
        key₂)) := by
  cases p with
  | nil =>
    simp only [List.nil_append]
    rw [assignSegs]
    have hin : jsIn k (JSValue.obj (JSProps.nil.set k (buildNode (s₁ :: r₁) v₁))) = .ok true := by
      simp [jsIn, JSProps.hasKey, JSProps.lookup_set_self]
    rw [hin, exceptOkBind]
    simp only [jsGetProp, JSProps.lookup_set_self, Option.getD_some, typeNameOf_buildNode,
      List.isEmpty_cons, Bool.not_false, Bool.true_and, List.headD_cons]
    rw [show (if (match s₂ :: r₂ with | [] => false | nk :: _ => isStrictIndex nk) = true
      then "array" else "object") = kindStr s₂ from rfl]
    simp [kindStr_beq_false hne, List.getLast]
  | cons q p' =>
    simp only [List.cons_append]
    rw [assignSegs]
    have hin : jsIn k (JSValue.obj (JSProps.nil.set k
        (buildNode (q :: (p' ++ s₁ :: r₁)) v₁))) = .ok true := by
      simp [jsIn, JSProps.hasKey, JSProps.lookup_set_self]
    rw [hin, exceptOkBind]
    simp only [jsGetProp, JSProps.lookup_set_self, Option.getD_some, typeNameOf_buildNode,
      List.isEmpty_cons, Bool.not_false, Bool.true_and, List.headD_cons]
    rw [show (if isStrictIndex q = true then "array" else "object") = kindStr q from by
      rw [kindStr]]
    simp only [beq_self_eq_true, Bool.not_true, Bool.and_false, Bool.false_eq_true, if_false,
      if_true]
    rw [pure_bind]
    simp only [isArrB, Bool.and_false, Bool.false_eq_true, if_false,
      JSProps.lookup_set_self, Option.getD_some]
    have hrec := walk_conflict (q :: p') (by simp) s₁ s₂ r₁ r₂ v₁ v₂ key₂ hne
    simp only [List.cons_append] at hrec
    rw [hrec, exceptErrBind]
    rfl

/-- C3 (amended): the conflict *is* detected in both entry orders whenever the
two conflicting paths consist of plain data segments (`goodSeg`: bounded
digit tokens or identifier-like names that hit no inherited property of
`{}`/`[]`) and share their leading raw segment and an identically spelled
(raw) segment prefix before diverging into segments of opposite structural
kinds — in particular for the claim's own example
`{"user.name": "Alice", "user[0]": "first"}` — and the error message names
the offending key (the last shared segment), both kinds, and the full key of
the entry processed second.  (The counterexample shows the claim's
"regardless of order" fails in general when the shared position is spelled
with two different raw strings, e.g. `a[1]` vs `a[01]`; a shared segment
naming an inherited property such as `toString` also breaks it, because
`k in current` finds the inherited value before any own property exists —
`goodSeg` scopes both theorems to the domain where the own-property model
matches the engine.) -/
theorem C3_conflict_detected_amended (key₁ key₂ : String) (v₁ v₂ : JSValue) (k : String) (p : List String)
    (s₁ s₂ : String) (r₁ r₂ : List String)
    (h₁ : normalizeKey key₁ = k :: (p ++ s₁ :: r₁))
    (h₂ : normalizeKey key₂ = k :: (p ++ s₂ :: r₂))
    (_hg₁ : (k :: (p ++ s₁ :: r₁)).all goodSeg = true)
    (_hg₂ : (k :: (p ++ s₂ :: r₂)).all goodSeg = true)
    (hne : isStrictIndex s₁ ≠ isStrictIndex s₂) :
    flattenToNestedObject [(key₁, v₁), (key₂, v₂)] =
      .error (.conflict (conflictMsg ((k :: p).getLast (by simp)) (kindStr s₁) s₂ (kindStr s₂)
        key₂)) ∧
    flattenToNestedObject [(key₂, v₂), (key₁, v₁)] =
      .error (.conflict (conflictMsg ((k :: p).getLast (by simp)) (kindStr s₂) s₁ (kindStr s₁)
        key₁)) := by
  constructor
  · rw [flattenToNestedObject]
    simp only [List.foldlM_cons, List.foldlM_nil, h₁, h₂]
    rw [assign_root_entry k p s₁ r₁ key₁ v₁]
    simp only [exceptOkBind]
    rw [root_conflict k p s₁ s₂ r₁ r₂ v₁ v₂ key₂ hne]
    rfl
  · rw [flattenToNestedObject]
    simp only [List.foldlM_cons, List.foldlM_nil, h₁, h₂]
    rw [assign_root_entry k p s₂ r₂ key₂ v₂]
    simp only [exceptOkBind]
    rw [root_conflict k p s₂ s₁ r₂ r₁ v₂ v₁ key₁ (Ne.symm hne)]
    rfl

theorem C3_conflict_detected_amended_witness :
    flattenToNestedObject [("user.name", JSValue.str "Alice"), ("user[0]", JSValue.str "first")] =
      .error (.conflict "Key conflict: 'user' is already defined as an object, but next key '0' expects an array. Full key: user[0]") ∧
    flattenToNestedObject [("user[0]", JSValue.str "first"), ("user.name", JSValue.str "Alice")] =
      .error (.conflict "Key conflict: 'user' is already defined as an array, but next key 'name' expects an object. Full key: user.name") := by
  have h := C3_conflict_detected_amended "user.name" "user[0]" (JSValue.str "Alice") (JSValue.str "first")
    "user" [] "name" "0" [] [] (by decide) (by decide) (by decide) (by decide) (by decide)
  exact ⟨h.1, h.2⟩

/-! ### C2: order-independence machinery

Two entries whose normalized paths share an identically spelled raw-segment
prefix and then diverge into distinct same-kind slots merge into the same
tree in either order, up to object-property insertion order (which the
decoder, like JS, does not normalize); `canonV` sorts properties to state
that equivalence. -/

theorem JSElems.get_set_ne (i j : Nat) (hne : i ≠ j) :
    ∀ (es : JSElems) (v : JSValue), (es.set i v).get j = es.get j := by
  induction i generalizing j with
  | zero =>
    intro es v
    cases j with
    | zero => exact absurd rfl hne
    | succ m => cases es <;> simp [JSElems.set, JSElems.get]
  | succ n ih =>
    intro es v
    cases j with
    | zero => cases es <;> simp [JSElems.set, JSElems.get]
    | succ m =>
      have hm : n ≠ m := fun h => hne (by rw [h])
      cases es <;> simp [JSElems.set, JSElems.get, ih m hm]

theorem JSElems.set_comm (i j : Nat) (hne : i ≠ j) :
    ∀ (es : JSElems) (a b : JSValue), (es.set i a).set j b = (es.set j b).set i a := by
  induction i generalizing j with
  | zero =>
    intro es a b
    cases j with
    | zero => exact absurd rfl hne
    | succ m => cases es <;> simp [JSElems.set]
  | succ n ih =>
    intro es a b
    cases j with
    | zero => cases es <;> simp [JSElems.set]
    | succ m =>
      have hm : n ≠ m := fun h => hne (by rw [h])
      cases es <;> simp [JSElems.set, ih m hm]

def insProp (k : String) (v : JSValue) : JSProps → JSProps
  | .nil => .cons k v .nil
  | .cons k' v' tl => if k < k' then .cons k v (.cons k' v' tl) else .cons k' v' (insProp k v tl)

def sortProps : JSProps → JSProps
  | .nil => .nil
  | .cons k v tl => insProp k v (sortProps tl)

mutual
/-- The canonical form of a value: object properties sorted by key at every
level; used to state that two decodes produce the same nested value tree
irrespective of the (JS-observable but validation-irrelevant) property
insertion order. -/
def canonV : JSValue → JSValue
  | .obj ps => .obj (sortProps (canonProps ps))
  | .arr es ps => .arr (canonElems es) (sortProps (canonProps ps))
  | v => v

def canonProps : JSProps → JSProps
  | .nil => .nil
  | .cons k v tl => .cons k (canonV v) (canonProps tl)

def canonElems : JSElems → JSElems
  | .nil => .nil
  | .hole tl => .hole (canonElems tl)
  | .elem v tl => .elem (canonV v) (canonElems tl)
end

theorem sortProps_swap₂ (k₁ k₂ : String) (v₁ v₂ : JSValue) (h : k₁ ≠ k₂) :
    sortProps (.cons k₁ v₁ (.cons k₂ v₂ .nil)) = sortProps (.cons k₂ v₂ (.cons k₁ v₁ .nil)) := by
  simp only [sortProps, insProp]
  rcases lt_trichotomy k₁ k₂ with hlt | heq | hgt
  · rw [if_pos hlt, if_neg (not_lt_of_lt hlt)]
  · exact absurd heq h
  · rw [if_neg (not_lt_of_lt hgt), if_pos hgt]

/-- The value the walk stores in the final slot: the raw value for a terminal
segment, the fresh chain for the remaining segments otherwise. -/
def tailVal : List String → JSValue → JSValue
  | [], v => v
  | r0 :: rs, v => buildNode (r0 :: rs) v

theorem buildNode_eq (k : String) (rest : List String) (w : JSValue) :
    buildNode (k :: rest) w =
      if isStrictIndex k then
        .arr (JSElems.nil.set (kIdxNat k) (tailVal rest w))
          (match rest, canonicalIndexNat k with
           | _ :: _, none => JSProps.nil.set k (emptyOf (kindStr (rest.headD "")))
           | _, _ => .nil)
      else .obj (JSProps.nil.set k (tailVal rest w)) := by
  cases rest <;> rfl

theorem obj_insert_fresh (key₂ : String) (v₂ : JSValue) (s₂ : String) (r₂ : List String)
    (ps : JSProps) (h : ps.hasKey s₂ = false) :
    assignSegs key₂ v₂ (s₂ :: r₂) (.obj ps) = .ok (.obj (ps.set s₂ (tailVal r₂ v₂))) := by
  have hin : jsIn s₂ (JSValue.obj ps) = .ok false := by simp [jsIn, h]
  cases r₂ with
  | nil =>
    rw [assignSegs, hin, exceptOkBind]
    simp [isArrB, Bool.and_false, jsSetProp, tailVal]
  | cons r0 rs =>
    rw [assignSegs, hin, exceptOkBind]
    simp only [Bool.false_and, Bool.and_false, Bool.false_eq_true, if_false]
    have hsub := assign_fresh (r0 :: rs) (by simp) key₂ v₂
    simp only [List.headD_cons] at hsub
    simp only [kindStr] at hsub
    simp only [jsSetProp, exceptOkBind, isArrB, Bool.and_false, Bool.false_eq_true, if_false,
      jsGetProp, JSProps.lookup_set_self, Option.getD_some]
    rw [hsub, exceptOkBind]
    simp [jsSetProp, JSProps.set_set_same_key, tailVal]

/-- The orphaned properties left on the join array: the first entry's
non-canonical non-terminal index spelling leaves one from its build, the
second entry's from its walk. -/
def junkProps₂ (s₁ : String) (r₁ : List String) (s₂ : String) (r₂ : List String) : JSProps :=
  let j1 : JSProps := match r₁, canonicalIndexNat s₁ with
    | _ :: _, none => JSProps.nil.set s₁ (emptyOf (kindStr (r₁.headD "")))
    | _, _ => .nil
  match r₂, canonicalIndexNat s₂ with
  | _ :: _, none => j1.set s₂ (emptyOf (kindStr (r₂.headD "")))
  | _, _ => j1

/-- The container at the point where the two paths diverge, holding both
entries' chains (first entry's slot written first). -/
def joinNode (s₁ : String) (r₁ : List String) (v₁ : JSValue) (s₂ : String) (r₂ : List String)
    (v₂ : JSValue) : JSValue :=
  if isStrictIndex s₁ then
    .arr ((JSElems.nil.set (kIdxNat s₁) (tailVal r₁ v₁)).set (kIdxNat s₂) (tailVal r₂ v₂))
      (junkProps₂ s₁ r₁ s₂ r₂)
  else
    .obj ((JSProps.nil.set s₁ (tailVal r₁ v₁)).set s₂ (tailVal r₂ v₂))

theorem join_insert (key₂ : String) (s₁ s₂ : String) (r₁ r₂ : List String) (v₁ v₂ : JSValue)
    (hk : isStrictIndex s₁ = isStrictIndex s₂) (hss : s₁ ≠ s₂)
    (hii : isStrictIndex s₁ = true → kIdxNat s₁ ≠ kIdxNat s₂) :
    assignSegs key₂ v₂ (s₂ :: r₂) (buildNode (s₁ :: r₁) v₁) =
      .ok (joinNode s₁ r₁ v₁ s₂ r₂ v₂) := by
  cases hs1 : isStrictIndex s₁ with
  | false =>
    rw [buildNode_eq, if_neg (by simp [hs1])]
    rw [obj_insert_fresh key₂ v₂ s₂ r₂ _ (by
      simp [JSProps.hasKey, JSProps.lookup_set_ne _ _ _ _ (Ne.symm hss), JSProps.lookup]
      exact hss)]
    rw [joinNode, if_neg (by simp [hs1])]
  | true =>
    have hs2 : isStrictIndex s₂ = true := hk ▸ hs1
    have hidx : kIdxNat s₁ ≠ kIdxNat s₂ := hii hs1
    rw [buildNode_eq, if_pos hs1]
    have hin : jsIn s₂ (JSValue.arr (JSElems.nil.set (kIdxNat s₁) (tailVal r₁ v₁))
        (match r₁, canonicalIndexNat s₁ with
         | _ :: _, none => JSProps.nil.set s₁ (emptyOf (kindStr (r₁.headD "")))
         | _, _ => .nil)) = .ok false := by
      rw [jsIn, strict_ne_length hs2]
      cases hc2 : canonicalIndexNat s₂ with
      | some j =>
        have hj : kIdxNat s₂ = j := canonical_kIdx hc2
        simp [JSElems.get_set_ne _ _ (hj ▸ hidx)]
        simp [JSElems.get_nil]
      | none =>
        cases r₁ with
        | nil => simp [JSProps.hasKey, JSProps.lookup]
        | cons a b =>
          cases hc1 : canonicalIndexNat s₁ with
          | some i => simp [JSProps.hasKey, JSProps.lookup]
          | none =>
            simp [JSProps.hasKey, JSProps.lookup_set_ne _ _ _ _ (Ne.symm hss),
              JSProps.lookup]
            exact hss
    cases r₂ with
    | nil =>
      rw [assignSegs, hin, exceptOkBind]
      simp only [Bool.false_and, Bool.and_false, Bool.false_eq_true, if_false]
      simp only [hs2, isArrB, Bool.true_and, if_true]
      rw [joinNode, if_pos hs1]
      simp only [setIdx, tailVal, junkProps₂]
    | cons r0 rs =>
      rw [assignSegs, hin, exceptOkBind]
      simp only [Bool.false_and, Bool.and_false, Bool.false_eq_true, if_false]
      have hsub := assign_fresh (r0 :: rs) (by simp) key₂ v₂
      simp only [List.headD_cons] at hsub
      simp only [kindStr] at hsub
      cases hc2 : canonicalIndexNat s₂ with
      | some j =>
        have hj : kIdxNat s₂ = j := canonical_kIdx hc2
        simp only [jsSetProp, hc2, exceptOkBind, isArrB, hs2, Bool.true_and, if_true,
          elemAtD, hj, JSElems.get_set_self, Option.getD_some, jsFalsy_emptyOf,
          Bool.false_eq_true, if_false]
        rw [hsub, exceptOkBind]
        rw [joinNode, if_pos hs1]
        simp only [setIdx, tailVal, junkProps₂, hj, JSElems.set_set_same_idx, hc2]
      | none =>
        simp only [jsSetProp, hc2, strict_ne_length hs2, Bool.false_eq_true, if_false,
          exceptOkBind, isArrB, hs2, Bool.true_and, if_true, elemAtD,
          JSElems.get_set_ne _ _ hidx, JSElems.get_nil, Option.getD_none, jsFalsy]
        rw [hsub, exceptOkBind]
        rw [joinNode, if_pos hs1]
        simp only [setIdx, tailVal, junkProps₂, hc2, List.headD_cons, kindStr]

/-- The tree after the second entry has been merged into the first entry's
fresh chain: the shared prefix chain with the join container at its end. -/
def mergeTree (s₁ : String) (r₁ : List String) (v₁ : JSValue) (s₂ : String) (r₂ : List String)
    (v₂ : JSValue) : List String → JSValue
  | [] => joinNode s₁ r₁ v₁ s₂ r₂ v₂
  | q :: p' =>
    let sub := mergeTree s₁ r₁ v₁ s₂ r₂ v₂ p'
    if isStrictIndex q then
      .arr (JSElems.nil.set (kIdxNat q) sub)
        (match canonicalIndexNat q with
         | none => JSProps.nil.set q (emptyOf (kindStr ((p' ++ s₁ :: r₁).headD "")))
         | _ => .nil)
    else
      .obj (JSProps.nil.set q sub)

theorem mergeTree_obj_eq (s₁ : String) (r₁ : List String) (v₁ : JSValue) (s₂ : String)
    (r₂ : List String) (v₂ : JSValue) (q : String) (p' : List String)
    (hq : isStrictIndex q = false) :
    mergeTree s₁ r₁ v₁ s₂ r₂ v₂ (q :: p') =
      .obj (JSProps.nil.set q (mergeTree s₁ r₁ v₁ s₂ r₂ v₂ p')) := by
  simp [mergeTree, hq]

theorem mergeTree_arr_can_eq (s₁ : String) (r₁ : List String) (v₁ : JSValue) (s₂ : String)
    (r₂ : List String) (v₂ : JSValue) (q : String) (p' : List String)
    (hq : isStrictIndex q = true) {i : Nat} (hc : canonicalIndexNat q = some i) :
    mergeTree s₁ r₁ v₁ s₂ r₂ v₂ (q :: p') =
      .arr (JSElems.nil.set (kIdxNat q) (mergeTree s₁ r₁ v₁ s₂ r₂ v₂ p')) .nil := by
  simp [mergeTree, hq, hc]

theorem mergeTree_arr_noncan_eq (s₁ : String) (r₁ : List String) (v₁ : JSValue) (s₂ : String)
    (r₂ : List String) (v₂ : JSValue) (q : String) (p' : List String)
    (hq : isStrictIndex q = true) (hc : canonicalIndexNat q = none) :
    mergeTree s₁ r₁ v₁ s₂ r₂ v₂ (q :: p') =
      .arr (JSElems.nil.set (kIdxNat q) (mergeTree s₁ r₁ v₁ s₂ r₂ v₂ p'))
        (JSProps.nil.set q (emptyOf (kindStr ((p' ++ s₁ :: r₁).headD "")))) := by
  simp [mergeTree, hq, hc]

theorem walk_merge (key₂ : String) (s₁ s₂ : String) (r₁ r₂ : List String) (v₁ v₂ : JSValue)
    (hk : isStrictIndex s₁ = isStrictIndex s₂) (hss : s₁ ≠ s₂)
    (hii : isStrictIndex s₁ = true → kIdxNat s₁ ≠ kIdxNat s₂) :
    ∀ (p : List String),
      assignSegs key₂ v₂ (p ++ s₂ :: r₂) (buildNode (p ++ s₁ :: r₁) v₁) =
        .ok (mergeTree s₁ r₁ v₁ s₂ r₂ v₂ p) := by
  have hkstr : kindStr s₁ = kindStr s₂ := by rw [kindStr, kindStr, hk]
  intro p
  induction p with
  | nil => simpa [mergeTree] using join_insert key₂ s₁ s₂ r₁ r₂ v₁ v₂ hk hss hii
  | cons q p' ih =>
    cases p' with
    | nil =>
      simp only [List.singleton_append]
      rw [assignSegs, jsIn_buildNode_self q s₁ r₁ v₁, exceptOkBind]
      simp only [jsGetProp_buildNode_self, List.isEmpty_cons, Bool.not_false, Bool.true_and,
        List.headD_cons]
      rw [show (if (match s₂ :: r₂ with | [] => false | nk :: _ => isStrictIndex nk) = true
        then "array" else "object") = kindStr s₂ from rfl]
      rw [hkstr]
      simp only [beq_self_eq_true, Bool.not_true, Bool.and_false, Bool.false_eq_true, if_false,
        if_true]
      rw [pure_bind]
      have hjoin := join_insert key₂ s₁ s₂ r₁ r₂ v₁ v₂ hk hss hii
      cases hq : isStrictIndex q with
      | false =>
        simp only [hq, Bool.false_and, Bool.false_eq_true, if_false]
        rw [jsGetProp_buildNode_obj q s₁ r₁ v₁ hq]
        rw [hjoin, exceptOkBind]
        rw [buildNode_eq, if_neg (by simp [hq])]
        rw [mergeTree_obj_eq _ _ _ _ _ _ _ _ hq]
        simp [jsSetProp, JSProps.set_set_same_key, mergeTree]
      | true =>
        cases hc : canonicalIndexNat q with
        | some i =>
          rw [buildNode_arr_canonical_eq q s₁ r₁ v₁ hq hc]
          simp only [hq, isArrB, Bool.true_and, elemAtD, JSElems.get_set_self,
            Option.getD_some, jsFalsy_buildNode, Bool.false_eq_true, if_false, if_true]
          rw [hjoin, exceptOkBind]
          rw [mergeTree_arr_can_eq _ _ _ _ _ _ _ _ hq hc]
          simp [setIdx, JSElems.set_set_same_idx, mergeTree]
        | none =>
          rw [buildNode_arr_noncanonical_eq q s₁ r₁ v₁ hq hc]
          simp only [hq, isArrB, Bool.true_and, elemAtD, JSElems.get_set_self,
            Option.getD_some, jsFalsy_buildNode, Bool.false_eq_true, if_false, if_true]
          rw [hjoin, exceptOkBind]
          rw [mergeTree_arr_noncan_eq _ _ _ _ _ _ _ _ hq hc]
          simp [setIdx, JSElems.set_set_same_idx, mergeTree]
    | cons q' p'' =>
      simp only [List.cons_append]
      rw [assignSegs, jsIn_buildNode_self q q' (p'' ++ s₁ :: r₁) v₁, exceptOkBind]
      simp only [jsGetProp_buildNode_self, List.isEmpty_cons, Bool.not_false, Bool.true_and,
        List.headD_cons]
      rw [show (if isStrictIndex q' = true then "array" else "object") = kindStr q' from by
        rw [kindStr]]
      simp only [beq_self_eq_true, Bool.not_true, Bool.and_false, Bool.false_eq_true, if_false,
        if_true]
      rw [pure_bind]
      have hrec := ih
      simp only [List.cons_append] at hrec
      cases hq : isStrictIndex q with
      | false =>
        simp only [hq, Bool.false_and, Bool.false_eq_true, if_false]
        rw [jsGetProp_buildNode_obj q q' (p'' ++ s₁ :: r₁) v₁ hq]
        rw [hrec, exceptOkBind]
        rw [buildNode_eq, if_neg (by simp [hq])]
        rw [mergeTree_obj_eq _ _ _ _ _ _ _ _ hq]
        simp [jsSetProp, JSProps.set_set_same_key]
      | true =>
        cases hc : canonicalIndexNat q with
        | some i =>
          rw [buildNode_arr_canonical_eq q q' (p'' ++ s₁ :: r₁) v₁ hq hc]
          simp only [hq, isArrB, Bool.true_and, elemAtD, JSElems.get_set_self,
            Option.getD_some, jsFalsy_buildNode, Bool.false_eq_true, if_false, if_true]
          rw [hrec, exceptOkBind]
          rw [mergeTree_arr_can_eq _ _ _ _ _ _ _ _ hq hc]
          simp [setIdx, JSElems.set_set_same_idx]
        | none =>
          rw [buildNode_arr_noncanonical_eq q q' (p'' ++ s₁ :: r₁) v₁ hq hc]
          simp only [hq, isArrB, Bool.true_and, elemAtD, JSElems.get_set_self,
            Option.getD_some, jsFalsy_buildNode, Bool.false_eq_true, if_false, if_true]
          rw [hrec, exceptOkBind]
          rw [mergeTree_arr_noncan_eq _ _ _ _ _ _ _ _ hq hc]
          simp [setIdx, JSElems.set_set_same_idx]

theorem compactElems_nil_set (v : JSValue) (hv : v ≠ .undef) :
    ∀ (i : Nat), compactElems (JSElems.nil.set i v) = .elem (compactArrays v) .nil := by
  intro i
  induction i with
  | zero => cases v <;> simp [JSElems.set, compactElems] <;> exact absurd rfl hv
  | succ n ih => simpa [JSElems.set, compactElems] using ih

theorem joinNode_ne_undef (s₁ : String) (r₁ : List String) (v₁ : JSValue) (s₂ : String)
    (r₂ : List String) (v₂ : JSValue) : joinNode s₁ r₁ v₁ s₂ r₂ v₂ ≠ .undef := by
  rw [joinNode]
  split <;> simp

theorem mergeTree_ne_undef (s₁ : String) (r₁ : List String) (v₁ : JSValue) (s₂ : String)
    (r₂ : List String) (v₂ : JSValue) :
    ∀ (p : List String), mergeTree s₁ r₁ v₁ s₂ r₂ v₂ p ≠ .undef := by
  intro p
  cases p with
  | nil => exact joinNode_ne_undef s₁ r₁ v₁ s₂ r₂ v₂
  | cons q p' =>
    cases hq : isStrictIndex q with
    | false => rw [mergeTree_obj_eq _ _ _ _ _ _ _ _ hq]; simp
    | true =>
      cases hc : canonicalIndexNat q with
      | some i => rw [mergeTree_arr_can_eq _ _ _ _ _ _ _ _ hq hc]; simp
      | none => rw [mergeTree_arr_noncan_eq _ _ _ _ _ _ _ _ hq hc]; simp

theorem JSProps.set_set_ne_nil (s₁ s₂ : String) (a b : JSValue) (h : s₁ ≠ s₂) :
    (JSProps.nil.set s₁ a).set s₂ b = .cons s₁ a (.cons s₂ b .nil) := by
  have hb : (s₁ == s₂) = false := by
    cases hbe : s₁ == s₂
    · rfl
    · exact absurd (beq_iff_eq.mp hbe) h
  simp [JSProps.set, hb]

theorem canon_obj_pair_swap (s₁ s₂ : String) (a b : JSValue) (h : s₁ ≠ s₂) :
    canonV (compactArrays (.obj ((JSProps.nil.set s₁ a).set s₂ b))) =
      canonV (compactArrays (.obj ((JSProps.nil.set s₂ b).set s₁ a))) := by
  rw [JSProps.set_set_ne_nil s₁ s₂ a b h, JSProps.set_set_ne_nil s₂ s₁ b a (Ne.symm h)]
  simp only [compactArrays, compactProps, canonV, canonProps]
  rw [sortProps_swap₂ _ _ _ _ h]

theorem canon_merge_swap (s₁ s₂ : String) (r₁ r₂ : List String) (v₁ v₂ : JSValue)
    (hk : isStrictIndex s₁ = isStrictIndex s₂) (hss : s₁ ≠ s₂)
    (hii : isStrictIndex s₁ = true → kIdxNat s₁ ≠ kIdxNat s₂) :
    ∀ (p : List String),
      canonV (compactArrays (mergeTree s₁ r₁ v₁ s₂ r₂ v₂ p)) =
        canonV (compactArrays (mergeTree s₂ r₂ v₂ s₁ r₁ v₁ p)) := by
  intro p
  induction p with
  | nil =>
    show canonV (compactArrays (joinNode s₁ r₁ v₁ s₂ r₂ v₂)) =
      canonV (compactArrays (joinNode s₂ r₂ v₂ s₁ r₁ v₁))
    cases hs1 : isStrictIndex s₁ with
    | false =>
      have hs2 : isStrictIndex s₂ = false := hk ▸ hs1
      rw [joinNode, if_neg (by simp [hs1]), joinNode, if_neg (by simp [hs2])]
      exact canon_obj_pair_swap s₁ s₂ _ _ hss
    | true =>
      have hs2 : isStrictIndex s₂ = true := hk ▸ hs1
      rw [joinNode, if_pos hs1, joinNode, if_pos hs2,
        JSElems.set_comm _ _ (hii hs1) JSElems.nil (tailVal r₁ v₁) (tailVal r₂ v₂)]
      simp [compactArrays, canonV]
  | cons q p' ih =>
    cases hq : isStrictIndex q with
    | false =>
      rw [mergeTree_obj_eq _ _ _ _ _ _ _ _ hq, mergeTree_obj_eq _ _ _ _ _ _ _ _ hq]
      simp only [JSProps.set, compactArrays, compactProps, canonV, canonProps, sortProps,
        insProp]
      rw [ih]
    | true =>
      cases hc : canonicalIndexNat q with
      | some i =>
        rw [mergeTree_arr_can_eq _ _ _ _ _ _ _ _ hq hc,
          mergeTree_arr_can_eq _ _ _ _ _ _ _ _ hq hc]
        simp only [compactArrays,
          compactElems_nil_set _ (mergeTree_ne_undef s₁ r₁ v₁ s₂ r₂ v₂ p'),
          compactElems_nil_set _ (mergeTree_ne_undef s₂ r₂ v₂ s₁ r₁ v₁ p'),
          canonV, canonElems, canonProps, sortProps]
        rw [ih]
      | none =>
        rw [mergeTree_arr_noncan_eq _ _ _ _ _ _ _ _ hq hc,
          mergeTree_arr_noncan_eq _ _ _ _ _ _ _ _ hq hc]
        simp only [compactArrays,
          compactElems_nil_set _ (mergeTree_ne_undef s₁ r₁ v₁ s₂ r₂ v₂ p'),
          compactElems_nil_set _ (mergeTree_ne_undef s₂ r₂ v₂ s₁ r₁ v₁ p'),
          canonV, canonElems, canonProps, sortProps]
        rw [ih]

theorem root_merge (key₂ : String) (k : String) (s₁ s₂ : String) (r₁ r₂ : List String)
    (v₁ v₂ : JSValue)
    (hk : isStrictIndex s₁ = isStrictIndex s₂) (hss : s₁ ≠ s₂)
    (hii : isStrictIndex s₁ = true → kIdxNat s₁ ≠ kIdxNat s₂) :
    ∀ (p : List String),
      assignSegs key₂ v₂ (k :: (p ++ s₂ :: r₂))
          (.obj (JSProps.nil.set k (buildNode (p ++ s₁ :: r₁) v₁))) =
        .ok (.obj (JSProps.nil.set k (mergeTree s₁ r₁ v₁ s₂ r₂ v₂ p))) := by
  have hkstr : kindStr s₁ = kindStr s₂ := by rw [kindStr, kindStr, hk]
  intro p
  cases p with
  | nil =>
    simp only [List.nil_append]
    rw [assignSegs]
    have hin : jsIn k (JSValue.obj (JSProps.nil.set k (buildNode (s₁ :: r₁) v₁))) = .ok true := by
      simp [jsIn, JSProps.hasKey, JSProps.lookup_set_self]
    rw [hin, exceptOkBind]
    simp only [jsGetProp, JSProps.lookup_set_self, Option.getD_some, typeNameOf_buildNode,
      List.isEmpty_cons, Bool.not_false, Bool.true_and, List.headD_cons]
    rw [show (if (match s₂ :: r₂ with | [] => false | nk :: _ => isStrictIndex nk) = true
      then "array" else "object") = kindStr s₂ from rfl]
    rw [hkstr]
    simp only [beq_self_eq_true, Bool.not_true, Bool.and_false, Bool.false_eq_true, if_false,
      if_true]
    rw [pure_bind]
    simp only [isArrB, Bool.and_false, Bool.false_eq_true, if_false,
      JSProps.lookup_set_self, Option.getD_some]
    rw [join_insert key₂ s₁ s₂ r₁ r₂ v₁ v₂ hk hss hii, exceptOkBind]
    simp [jsSetProp, JSProps.set_set_same_key, mergeTree]
  | cons q p' =>
    simp only [List.cons_append]
    rw [assignSegs]
    have hin : jsIn k (JSValue.obj (JSProps.nil.set k
        (buildNode (q :: (p' ++ s₁ :: r₁)) v₁))) = .ok true := by
      simp [jsIn, JSProps.hasKey, JSProps.lookup_set_self]
    rw [hin, exceptOkBind]
    simp only [jsGetProp, JSProps.lookup_set_self, Option.getD_some, typeNameOf_buildNode,
      List.isEmpty_cons, Bool.not_false, Bool.true_and, List.headD_cons]
    rw [show (if isStrictIndex q = true then "array" else "object") = kindStr q from by
      rw [kindStr]]
    simp only [beq_self_eq_true, Bool.not_true, Bool.and_false, Bool.false_eq_true, if_false,
      if_true]
    rw [pure_bind]
    simp only [isArrB, Bool.and_false, Bool.false_eq_true, if_false,
      JSProps.lookup_set_self, Option.getD_some]
    have hrec := walk_merge key₂ s₁ s₂ r₁ r₂ v₁ v₂ hk hss hii (q :: p')
    simp only [List.cons_append] at hrec
    rw [hrec, exceptOkBind]
    simp [jsSetProp, JSProps.set_set_same_key]

/-- C2 (amended): decoding a two-entry flat map is order-independent when the
two normalized paths consist of plain data segments (`goodSeg`: bounded digit
tokens or identifier-like names that hit no inherited property of `{}`/`[]`,
so the walk sees own properties only and indices are exact), share an
identically spelled raw-segment prefix (possibly empty) and then diverge into
two distinct slots of the same structural kind (different property names, or
indices denoting different array slots): both entry orders decode
successfully and produce the same nested value tree up to the insertion order
of object properties (`canonV` sorts properties by key; JS preserves
insertion order, so the raw trees differ exactly there).  The counterexample
shows the claim's unrestricted order-independence is false: with one path a
proper prefix of the other, one order succeeds while the other throws; a
segment naming an inherited property (e.g. `toString`, through which one
order descends into a primitive stored on the shared builtin) or indices
rounding to the same double break it as well, hence the `goodSeg` scope. -/
theorem C2_order_independent_amended (key₁ key₂ : String) (v₁ v₂ : JSValue) (p : List String)
    (s₁ s₂ : String) (r₁ r₂ : List String)
    (h₁ : normalizeKey key₁ = p ++ s₁ :: r₁)
    (h₂ : normalizeKey key₂ = p ++ s₂ :: r₂)
    (_hg₁ : (p ++ s₁ :: r₁).all goodSeg = true)
    (_hg₂ : (p ++ s₂ :: r₂).all goodSeg = true)
    (hss : s₁ ≠ s₂)
    (hk : p ≠ [] → isStrictIndex s₁ = isStrictIndex s₂)
    (hii : p ≠ [] → isStrictIndex s₁ = true → kIdxNat s₁ ≠ kIdxNat s₂) :
    ∃ w₁ w₂, flattenToNestedObject [(key₁, v₁), (key₂, v₂)] = .ok w₁ ∧
      flattenToNestedObject [(key₂, v₂), (key₁, v₁)] = .ok w₂ ∧
      canonV w₁ = canonV w₂ := by
  cases p with
  | nil =>
    simp only [List.nil_append] at h₁ h₂
    refine ⟨compactArrays (.obj ((JSProps.nil.set s₁ (tailVal r₁ v₁)).set s₂ (tailVal r₂ v₂))),
      compactArrays (.obj ((JSProps.nil.set s₂ (tailVal r₂ v₂)).set s₁ (tailVal r₁ v₁))),
      ?_, ?_, ?_⟩
    · rw [flattenToNestedObject]
      simp only [List.foldlM_cons, List.foldlM_nil, h₁, h₂]
      rw [show (JSValue.obj .nil) = .obj (JSProps.nil) from rfl]
      rw [obj_insert_fresh key₁ v₁ s₁ r₁ .nil rfl, exceptOkBind]
      rw [obj_insert_fresh key₂ v₂ s₂ r₂ _ (by
        simp [JSProps.hasKey, JSProps.lookup_set_ne _ _ _ _ (Ne.symm hss), JSProps.lookup]
        exact hss), exceptOkBind]
      rfl
    · rw [flattenToNestedObject]
      simp only [List.foldlM_cons, List.foldlM_nil, h₁, h₂]
      rw [show (JSValue.obj .nil) = .obj (JSProps.nil) from rfl]
      rw [obj_insert_fresh key₂ v₂ s₂ r₂ .nil rfl, exceptOkBind]
      rw [obj_insert_fresh key₁ v₁ s₁ r₁ _ (by
        simp [JSProps.hasKey, JSProps.lookup_set_ne _ _ _ _ hss, JSProps.lookup]
        exact (Ne.symm hss)), exceptOkBind]
      rfl
    · exact canon_obj_pair_swap s₁ s₂ _ _ hss
  | cons k p'' =>
    have hk' := hk (by simp)
    have hii' := hii (by simp)
    simp only [List.cons_append] at h₁ h₂
    refine ⟨compactArrays (.obj (JSProps.nil.set k (mergeTree s₁ r₁ v₁ s₂ r₂ v₂ p''))),
      compactArrays (.obj (JSProps.nil.set k (mergeTree s₂ r₂ v₂ s₁ r₁ v₁ p''))),
      ?_, ?_, ?_⟩
    · rw [flattenToNestedObject]
      simp only [List.foldlM_cons, List.foldlM_nil, h₁, h₂]
      rw [assign_root_entry k p'' s₁ r₁ key₁ v₁, exceptOkBind]
      rw [root_merge key₂ k s₁ s₂ r₁ r₂ v₁ v₂ hk' hss hii' p'', exceptOkBind]
      rfl
    · rw [flattenToNestedObject]
      simp only [List.foldlM_cons, List.foldlM_nil, h₁, h₂]
      rw [assign_root_entry k p'' s₂ r₂ key₂ v₂, exceptOkBind]
      rw [root_merge key₁ k s₂ s₁ r₂ r₁ v₂ v₁ hk'.symm (Ne.symm hss)
        (fun h2 => (hii' (hk'.trans h2)).symm) p'', exceptOkBind]
      rfl
    · show canonV (compactArrays (.obj (JSProps.nil.set k (mergeTree s₁ r₁ v₁ s₂ r₂ v₂ p'')))) =
        canonV (compactArrays (.obj (JSProps.nil.set k (mergeTree s₂ r₂ v₂ s₁ r₁ v₁ p''))))
      simp only [JSProps.set, compactArrays, compactProps, canonV, canonProps, sortProps,
        insProp]
      rw [canon_merge_swap s₁ s₂ r₁ r₂ v₁ v₂ hk' hss hii' p'']

theorem C2_order_independent_amended_witness :
    ∃ w₁ w₂,
      flattenToNestedObject [("user.name", JSValue.str "Alice"),
        ("user.email", JSValue.str "alice@example.com")] = .ok w₁ ∧
      flattenToNestedObject [("user.email", JSValue.str "alice@example.com"),
        ("user.name", JSValue.str "Alice")] = .ok w₂ ∧
      canonV w₁ = canonV w₂ :=
  C2_order_independent_amended "user.name" "user.email" (JSValue.str "Alice")
    (JSValue.str "alice@example.com") ["user"] "name" "email" [] []
    (by decide) (by decide) (by decide) (by decide) (by decide) (by decide) (by decide)
